import Mathlib

set_option maxRecDepth 100000

/-!
Adafruit_BLE: the AT-command response reader.

A shallow embedding of `src/Adafruit_BLE.cpp`.

* The byte stream (`available()`, `read()`) is an external collaborator.  It is
  embedded as the finite list of the answers it gives to the successive calls of
  `available()`: `Poll.byte c` is "a byte is available, and `read()` returns `c`",
  `Poll.idle` is "nothing is available at this call".  Once the list is used up
  nothing is available any more.
* The effects of the driver on the outside (bytes written to the module, text
  printed on `Serial`, blocking delays, `flush()`) are returned as a list of
  `Event`s, in the order in which they happen.
* `BLE_BUFSIZE` and the default argument of `readline()` come from the header,
  which is not part of the sources at hand; they are the two fields of `Config`.
* A byte is written as a `Char`, so that the texts of the protocol can be read;
  `buffer` is the list of the `BLE_BUFSIZE` bytes of the array.
* `strtol` is the function of the C library, embedded after the C standard for a
  32-bit `long`, which is the `long` of the boards the library is written for.
-/

namespace Adafruit_BLE

/-- One answer of the byte stream to a call of `available()`. -/
inductive Poll where
  | idle
  | byte (c : Char)
deriving DecidableEq, Repr

/-- An effect of the driver that is visible from outside. -/
inductive Event where
  | tx (bytes : List Char)
  | serial (bytes : List Char)
  | delay (ms : Nat)
  | flush
deriving DecidableEq, Repr

/-- The constants of `Adafruit_BLE.h` used by the code: the size of `buffer` and
the default value of the `timeout` argument of `readline`. -/
structure Config where
  BLE_BUFSIZE : Nat
  BLE_DEFAULT_TIMEOUT : Nat
deriving DecidableEq, Repr

/-- The driver object together with the pending input of its stream:
`buffer` is `char buffer[BLE_BUFSIZE]`, `_verbose` its verbosity flag. -/
structure BLE where
  input : List Poll
  buffer : List Char
  _verbose : Bool
deriving DecidableEq, Repr

/-- The terminating byte of a C string. -/
def NUL : Char := Char.ofNat 0

/-- The C string that starts at the beginning of a `char` array: the bytes before
the first NUL. -/
def cstr (buf : List Char) : List Char :=
  buf.takeWhile (fun c => c != NUL)

/-- Result of one run of the inner loop `while (available())` of `readline`:
`done` tells that the loop was left by `timeout = 0; break;`. -/
structure InnerOut where
  rest : List Poll
  replyidx : Nat
  buffer : List Char
  done : Bool
deriving DecidableEq, Repr

/-- The inner loop `while (available()) { ... }` of `readline`.  `replyidx` is a
`uint16_t`, hence the reduction modulo `2^16` of `replyidx++`; `BLE_BUFSIZE-1` is
the subtraction of the code for every `BLE_BUFSIZE` from 1 on. -/
def readlineInner (cfg : Config) : List Poll → Nat → List Char → InnerOut
  | [], replyidx, buffer => ⟨[], replyidx, buffer, false⟩
  | Poll.idle :: rest, replyidx, buffer => ⟨rest, replyidx, buffer, false⟩
  | Poll.byte c :: rest, replyidx, buffer =>
    if c = '\r' then readlineInner cfg rest replyidx buffer
    else if c = '\n' then
      if replyidx = 0 then readlineInner cfg rest replyidx buffer
      else ⟨rest, replyidx, buffer, true⟩
    else
      let buffer1 := buffer.set replyidx c
      let replyidx1 := (replyidx + 1) % 65536
      if replyidx1 ≥ cfg.BLE_BUFSIZE - 1 then ⟨rest, replyidx1, buffer1, true⟩
      else readlineInner cfg rest replyidx1 buffer1

/-- Result of the outer loop of `readline`. -/
structure LoopOut where
  rest : List Poll
  replyidx : Nat
  buffer : List Char
  trace : List Event
deriving DecidableEq, Repr

/-- The outer loop `while (timeout--) { ...; if (timeout == 0) break; delay(1); }`
of `readline`; the first argument is the value of `timeout` when the loop
condition is tested. -/
def readlineLoop (cfg : Config) : Nat → List Poll → Nat → List Char → LoopOut
  | 0, input, replyidx, buffer => ⟨input, replyidx, buffer, []⟩
  | timeout + 1, input, replyidx, buffer =>
    let r := readlineInner cfg input replyidx buffer
    if r.done ∨ timeout = 0 then ⟨r.rest, r.replyidx, r.buffer, []⟩
    else
      let l := readlineLoop cfg timeout r.rest r.replyidx r.buffer
      ⟨l.rest, l.replyidx, l.buffer, Event.delay 1 :: l.trace⟩

/-- Result of a call of a member function: the returned value, the driver
afterwards, and the effects of the call. -/
structure Out (α : Type) where
  val : α
  st : BLE
  trace : List Event

/-- `uint16_t Adafruit_BLE::readline(uint16_t timeout)`. -/
def readline (cfg : Config) (timeout : Nat) (s : BLE) : Out Nat :=
  let l := readlineLoop cfg timeout s.input 0 s.buffer
  ⟨l.replyidx, { s with input := l.rest, buffer := l.buffer.set l.replyidx NUL }, l.trace⟩

/-- The string literal as the bytes of a C string. -/
def lit (s : String) : List Char := s.toList

/-- `println(x)` of the `Print` interface on the transport: the text followed by
the line terminator `"\r\n"`. -/
def println (text : List Char) : List Event :=
  [Event.tx (text ++ ['\r', '\n'])]

/-- Modelled from the spec: `flush()` is pure virtual in this repository and
implemented by the transport classes, which are not at hand; the spec says that
it "discards any residual buffered bytes", here the bytes that are available
without waiting. -/
def flush (s : BLE) : BLE :=
  { s with input := s.input.dropWhile (fun p => p != Poll.idle) }

/-- The statement `if (_verbose) { Serial.print("\n<- "); }`. -/
def verbosePrompt (s : BLE) : List Event :=
  if s._verbose then [Event.serial (lit "\n<- ")] else []

/-- The loop `while ( readline() ) { ... }` of `waitForOK`, with an explicit bound
on the number of iterations; `none` when the bound is reached. -/
def waitForOKLoop (cfg : Config) : Nat → BLE → Option (Out Bool)
  | 0, _ => none
  | fuel + 1, s =>
    let r := readline cfg cfg.BLE_DEFAULT_TIMEOUT s
    if r.val = 0 then some ⟨false, r.st, r.trace⟩
    else if cstr r.st.buffer = lit "OK" then some ⟨true, r.st, r.trace⟩
    else if cstr r.st.buffer = lit "ERROR" then some ⟨false, r.st, r.trace⟩
    else (waitForOKLoop cfg fuel r.st).map
      (fun o => ⟨o.val, o.st, r.trace ++ o.trace⟩)

/-- `bool Adafruit_BLE::waitForOK(void)`.  Every `readline` that returns a
non-zero count takes at least one answer from the stream, so the loop makes at
most `s.input.length + 1` iterations and the bound is never reached
(`waitForOKLoop_isSome`, `waitForOKLoop_fuel`). -/
def waitForOK (cfg : Config) (s : BLE) : Out Bool :=
  let o := (waitForOKLoop cfg (s.input.length + 1) s).getD ⟨false, s, []⟩
  ⟨o.val, o.st, verbosePrompt s ++ o.trace⟩

/-- `isspace` of the C library, in the "C" locale. -/
def isspace (c : Char) : Bool :=
  c = ' ' || c = '\t' || c = '\n' || c = Char.ofNat 11 || c = Char.ofNat 12 || c = '\r'

/-- The value of a byte as a digit of `strtol`: `0`-`9`, then the letters from 10
on, in either case. -/
def digitValue (c : Char) : Option Nat :=
  if '0' ≤ c ∧ c ≤ '9' then some (c.toNat - 48)
  else if 'a' ≤ c ∧ c ≤ 'z' then some (c.toNat - 97 + 10)
  else if 'A' ≤ c ∧ c ≤ 'Z' then some (c.toNat - 65 + 10)
  else none

/-- Whether the byte is a digit in the given base. -/
def isDigitOf (base : Nat) (c : Char) : Bool :=
  match digitValue c with
  | some d => decide (d < base)
  | none => false

/-- The number written by the longest run of digits of the given base at the
start of the text, added to `acc` shifted; `acc` when there is no digit. -/
def digitsValue (base : Nat) : List Char → Nat → Nat
  | [], acc => acc
  | c :: cs, acc =>
    match digitValue c with
    | some d => if d < base then digitsValue base cs (acc * base + d) else acc
    | none => acc

/-- Largest `long` of the targets of the library (32-bit `long`). -/
def LONG_MAX : Int := 2147483647

/-- Smallest `long` of the targets of the library (32-bit `long`). -/
def LONG_MIN : Int := -2147483648

/-- The C library function `strtol(nptr, NULL, base)` for `base` 0 or 2..36, after
ISO C 7.22.1.4: white space is skipped, then an optional sign, then for base 0
or 16 an optional `0x`/`0X` in front of a hexadecimal digit; base 0 means octal
after a leading `0` and decimal otherwise.  The value of the longest run of
digits is returned, 0 if there is none, cut to the range of `long`. -/
def strtol (nptr : List Char) (base : Nat) : Int :=
  let s1 := nptr.dropWhile isspace
  let neg := decide (s1.head? = some '-')
  let s2 := if s1.head? = some '-' ∨ s1.head? = some '+' then s1.tail else s1
  let hex : Bool :=
    decide (s2.head? = some '0') &&
      (decide (s2.tail.head? = some 'x') || decide (s2.tail.head? = some 'X')) &&
      (match (s2.drop 2).head? with
        | some h => isDigitOf 16 h
        | none => false)
  let b :=
    if (base = 0 ∨ base = 16) ∧ hex = true then 16
    else if base = 0 then (if s2.head? = some '0' then 8 else 10)
    else base
  let s3 := if (base = 0 ∨ base = 16) ∧ hex = true then s2.drop 2 else s2
  let mag : Int := (digitsValue b s3 0 : Nat)
  if neg then max LONG_MIN (-mag) else min LONG_MAX mag

/-- Whether the text has a numeric prefix for `strtol` with base 0: after the
white space and an optional sign comes a decimal digit (a hexadecimal or octal
number begins with the digit `0`). -/
def numericStart (text : List Char) : Bool :=
  let s1 := text.dropWhile isspace
  let s2 := if s1.head? = some '-' ∨ s1.head? = some '+' then s1.tail else s1
  match s2.head? with
  | some c => isDigitOf 10 c
  | none => false

/-- `int32_t Adafruit_BLE::readline_parseInt(void)`. -/
def readline_parseInt (cfg : Config) (s : BLE) : Out Int :=
  let r := readline cfg cfg.BLE_DEFAULT_TIMEOUT s
  if r.val = 0 then ⟨0, r.st, r.trace⟩
  else ⟨strtol (cstr r.st.buffer) 0, r.st, r.trace⟩

/-- `bool Adafruit_BLE::sendCommandWithIntReply(cmd, int32_t *reply)`, for a
command in flash or in SRAM (the two bodies are the same); the value is the
pair of `*reply` and the returned flag. -/
def sendCommandWithIntReply (cfg : Config) (cmd : List Char) (s : BLE) : Out (Int × Bool) :=
  let r := readline_parseInt cfg s
  let w := waitForOK cfg r.st
  ⟨(r.val, w.val), w.st, println cmd ++ verbosePrompt s ++ r.trace ++ w.trace⟩

/-- `bool Adafruit_BLE::sendCommandCheckOK(cmd)`, for a command in flash or in
SRAM (the two bodies are the same). -/
def sendCommandCheckOK (cfg : Config) (cmd : List Char) (s : BLE) : Out Bool :=
  let w := waitForOK cfg s
  ⟨w.val, w.st, println cmd ++ w.trace⟩

/-- The loop `for (uint8_t t=0; t < 5; t++) { isOK = sendCommandCheckOK(F("ATZ"));
if (isOK) break; }` of `reset`, with the number of iterations that remain and the
current value of `isOK`. -/
def resetLoop (cfg : Config) : Nat → Bool → BLE → Out Bool
  | 0, isOK, s => ⟨isOK, s, []⟩
  | n + 1, _, s =>
    let r := sendCommandCheckOK cfg (lit "ATZ") s
    if r.val then r
    else
      let l := resetLoop cfg n r.val r.st
      ⟨l.val, l.st, r.trace ++ l.trace⟩

/-- `bool Adafruit_BLE::reset(void)`.  The local `isOK` has no initial value; the
first loop assigns it before it is read. -/
def reset (cfg : Config) (s : BLE) : Out Bool :=
  let l1 := resetLoop cfg 5 false s
  if !l1.val then
    let l2 := resetLoop cfg 5 l1.val l1.st
    let tr := l1.trace ++ [Event.delay 50] ++ println (lit "+++") ++ [Event.delay 50] ++ l2.trace
    if !l2.val then ⟨false, l2.st, tr⟩
    else ⟨l2.val, flush l2.st, tr ++ [Event.delay 1000, Event.flush]⟩
  else ⟨l1.val, flush l1.st, l1.trace ++ [Event.delay 1000, Event.flush]⟩

/-- The loop `while (! isOK) { isOK = sendCommandCheckOK(...); delay(1000); }` of
`factoryReset`, entered with `isOK` false, with an explicit bound on the number
of iterations; `none` when the bound is reached. -/
def factoryResetLoop (cfg : Config) : Nat → BLE → Option (Out Bool)
  | 0, _ => none
  | fuel + 1, s =>
    let r := sendCommandCheckOK cfg (lit "AT+FACTORYRESET") s
    if r.val then some ⟨r.val, r.st, r.trace ++ [Event.delay 1000]⟩
    else (factoryResetLoop cfg fuel r.st).map
      (fun o => ⟨o.val, o.st, r.trace ++ [Event.delay 1000] ++ o.trace⟩)

/-- `bool Adafruit_BLE::factoryReset(void)`, with a bound on the number of
iterations of its loop; `none` when the loop has not ended within the bound. -/
def factoryReset (cfg : Config) (fuel : Nat) (s : BLE) : Option (Out Bool) :=
  (factoryResetLoop cfg fuel s).map
    (fun o => ⟨o.val, flush o.st, o.trace ++ [Event.flush]⟩)

/-- `bool Adafruit_BLE::echo(bool enable)`. -/
def echo (cfg : Config) (enable : Bool) (s : BLE) : Out Bool :=
  let w := waitForOK cfg s
  ⟨w.val, w.st,
    [Event.tx (lit "ATE="), Event.tx ((if enable then ['1'] else ['0']) ++ ['\r', '\n'])]
      ++ w.trace⟩

/-- `bool Adafruit_BLE::isConnected(void)`: the `int32_t` is converted to `bool`. -/
def isConnected (cfg : Config) (s : BLE) : Out Bool :=
  let r := sendCommandWithIntReply cfg (lit "AT+GAPGETCONN") s
  ⟨decide (r.val.1 ≠ 0), r.st, r.trace⟩

/-- The loop `while ( readline() ) { if (...) break; Serial.println(buffer); }` of
`info`, with an explicit bound on the number of iterations; `none` when the
bound is reached. -/
def infoLoop (cfg : Config) : Nat → BLE → Option (Out Unit)
  | 0, _ => none
  | fuel + 1, s =>
    let r := readline cfg cfg.BLE_DEFAULT_TIMEOUT s
    if r.val = 0 then some ⟨(), r.st, r.trace⟩
    else if cstr r.st.buffer = lit "OK" ∨ cstr r.st.buffer = lit "ERROR" then
      some ⟨(), r.st, r.trace⟩
    else (infoLoop cfg fuel r.st).map
      (fun o => ⟨(), o.st,
        r.trace ++ [Event.serial (cstr r.st.buffer ++ ['\r', '\n'])] ++ o.trace⟩)

/-- `void Adafruit_BLE::info(void)`.  As in `waitForOK`, the loop makes at most
`s.input.length + 1` iterations. -/
def info (cfg : Config) (s : BLE) : Out Unit :=
  let v := s._verbose
  let s1 : BLE := { s with _verbose := false }
  let o := (infoLoop cfg (s1.input.length + 1) s1).getD ⟨(), s1, []⟩
  ⟨(), { o.st with _verbose := v },
    [Event.serial (lit "----------------\r\n")] ++ println (lit "ATI") ++ o.trace
      ++ [Event.serial (lit "----------------\r\n")]⟩

/-- The input on which every byte of the text is available at once. -/
def avail (bytes : List Char) : List Poll := bytes.map Poll.byte

/-- The text with every carriage return removed. -/
def dropCR (bytes : List Char) : List Char := bytes.filter (fun c => c != '\r')

/-- The lines captured by successive calls of `readline()` up to the first call
that returns 0, each as the bytes stored by its call, `buffer[0 .. count)`; at
most `fuel` calls are made. -/
def capturedLinesLoop (cfg : Config) : Nat → BLE → List (List Char)
  | 0, _ => []
  | fuel + 1, s =>
    let r := readline cfg cfg.BLE_DEFAULT_TIMEOUT s
    if r.val = 0 then []
    else r.st.buffer.take r.val :: capturedLinesLoop cfg fuel r.st

/-- The lines captured by successive calls of `readline()` before the first call
that returns 0.  A call that returns a non-zero count takes at least one answer
from the stream, so `s.input.length + 1` calls reach the call that returns 0
(`capturedLinesLoop_fuel`). -/
def capturedLines (cfg : Config) (s : BLE) : List (List Char) :=
  capturedLinesLoop cfg (s.input.length + 1) s

/-- The sizes that the specification gives as examples: a buffer of 128 bytes and
a default timeout of 250 ms. -/
def exampleConfig : Config := ⟨128, 250⟩

/-- A driver with a zeroed buffer and `_verbose` false (as after construction of
a static object), in front of the given input. -/
def start (cfg : Config) (input : List Poll) : BLE :=
  ⟨input, List.replicate cfg.BLE_BUFSIZE NUL, false⟩

/-- The driver after `k` consecutive attempts `sendCommandCheckOK(cmd)`. -/
def afterAttempts (cfg : Config) (cmd : List Char) : Nat → BLE → BLE
  | 0, s => s
  | k + 1, s => afterAttempts cfg cmd k (sendCommandCheckOK cfg cmd s).st

/-- The outcome of the attempt number `k + 1` in a row of consecutive attempts
`sendCommandCheckOK(cmd)`. -/
def attemptOK (cfg : Config) (cmd : List Char) (k : Nat) (s : BLE) : Bool :=
  (sendCommandCheckOK cfg cmd (afterAttempts cfg cmd k s)).val

/-- How many times the command line `cmd` was written to the module. -/
def commandsSent (cmd : List Char) (trace : List Event) : Nat :=
  trace.count (Event.tx (cmd ++ ['\r', '\n']))

/-- The effects of `n` rounds "attempt `sendCommandCheckOK(cmd)`, then
`delay(1000)`" made one after the other. -/
def attemptsTrace (cfg : Config) (cmd : List Char) : Nat → BLE → List Event
  | 0, _ => []
  | n + 1, s =>
    (sendCommandCheckOK cfg cmd s).trace ++ [Event.delay 1000]
      ++ attemptsTrace cfg cmd n (sendCommandCheckOK cfg cmd s).st

/-- The lines in front of the first line that is `"OK"` or `"ERROR"`. -/
def beforeSentinel (lines : List (List Char)) : List (List Char) :=
  lines.takeWhile (fun l => l != lit "OK" && l != lit "ERROR")

/-- The effects with the one-millisecond delays of `readline` left out. -/
def withoutPolling (trace : List Event) : List Event :=
  trace.filter (fun e => e != Event.delay 1)

/-- What `Serial.println(text)` prints: the text and the line terminator. -/
def serialLine (text : List Char) : Event :=
  Event.serial (text ++ ['\r', '\n'])

/-- The writes `buffer[replyidx] = c` made by the inner loop of `readline`, in
order, each as the index and the byte; the loop takes the same path as
`readlineInner`. -/
def readlineInnerWrites (cfg : Config) : List Poll → Nat → List (Nat × Char)
  | [], _ => []
  | Poll.idle :: _, _ => []
  | Poll.byte c :: rest, replyidx =>
    if c = '\r' then readlineInnerWrites cfg rest replyidx
    else if c = '\n' then
      if replyidx = 0 then readlineInnerWrites cfg rest replyidx
      else []
    else
      let replyidx1 := (replyidx + 1) % 65536
      if replyidx1 ≥ cfg.BLE_BUFSIZE - 1 then [(replyidx, c)]
      else (replyidx, c) :: readlineInnerWrites cfg rest replyidx1

/-- The writes `buffer[replyidx] = c` made during the outer loop of `readline`. -/
def readlineLoopWrites (cfg : Config) : Nat → List Poll → Nat → List Char → List (Nat × Char)
  | 0, _, _, _ => []
  | timeout + 1, input, replyidx, buffer =>
    let r := readlineInner cfg input replyidx buffer
    if r.done ∨ timeout = 0 then readlineInnerWrites cfg input replyidx
    else readlineInnerWrites cfg input replyidx
      ++ readlineLoopWrites cfg timeout r.rest r.replyidx r.buffer

/-- The bytes stored by a call of `readline`: its writes `buffer[replyidx] = c`. -/
def readlineStores (cfg : Config) (timeout : Nat) (s : BLE) : List (Nat × Char) :=
  readlineLoopWrites cfg timeout s.input 0 s.buffer

/-- All the writes to `buffer` of a call of `readline`: the stored bytes, then
the final `buffer[replyidx] = 0`. -/
def readlineWrites (cfg : Config) (timeout : Nat) (s : BLE) : List (Nat × Char) :=
  readlineStores cfg timeout s ++ [((readline cfg timeout s).val, NUL)]

/-- The array after the writes, made in order. -/
def applyWrites (buffer : List Char) (writes : List (Nat × Char)) : List Char :=
  writes.foldl (fun b w => b.set w.1 w.2) buffer

/-- The bytes among the answers of the stream. -/
def bytesOf : List Poll → List Char
  | [] => []
  | Poll.idle :: rest => bytesOf rest
  | Poll.byte c :: rest => c :: bytesOf rest

/-- The bytes other than `'\r'` and `'\n'`. -/
def lineContent (bytes : List Char) : List Char :=
  bytes.filter (fun c => c != '\r' && c != '\n')

/-- The number of iterations of the outer loop `while (timeout--)` of `readline`;
the loop takes the same path as `readlineLoop`. -/
def readlineLoopIterations (cfg : Config) : Nat → List Poll → Nat → List Char → Nat
  | 0, _, _, _ => 0
  | timeout + 1, input, replyidx, buffer =>
    let r := readlineInner cfg input replyidx buffer
    if r.done ∨ timeout = 0 then 1
    else 1 + readlineLoopIterations cfg timeout r.rest r.replyidx r.buffer

/-- The number of iterations of the outer loop made by a call of `readline`. -/
def readlineIterations (cfg : Config) (timeout : Nat) (s : BLE) : Nat :=
  readlineLoopIterations cfg timeout s.input 0 s.buffer

/-- The effects of the first `n` iterations of the loop of `factoryReset` (of all
its iterations when it ends before), and whether the loop has ended by then. -/
def factoryResetProgress (cfg : Config) : Nat → BLE → List Event × Bool
  | 0, _ => ([], false)
  | n + 1, s =>
    let r := sendCommandCheckOK cfg (lit "AT+FACTORYRESET") s
    if r.val then (r.trace ++ [Event.delay 1000], true)
    else
      let p := factoryResetProgress cfg n r.st
      (r.trace ++ [Event.delay 1000] ++ p.1, p.2)

/-- The lines of a text, cut at its newlines (the last one is what follows the
last newline). -/
def newlineLines : List Char → List (List Char)
  | [] => [[]]
  | c :: cs =>
    if c = '\n' then [] :: newlineLines cs
    else
      match newlineLines cs with
      | [] => [[c]]
      | l :: ls => (c :: l) :: ls

/-- The over-long reply: `BLE_BUFSIZE-1` bytes `x`, then `OK` and a newline. -/
def overlong (cfg : Config) : List Char :=
  List.replicate (cfg.BLE_BUFSIZE - 1) 'x' ++ lit "OK\n"

/-! ## Properties -/


theorem readlineInner_rest_le (cfg : Config) (input : List Poll) :
    ∀ (replyidx : Nat) (buffer : List Char),
      (readlineInner cfg input replyidx buffer).rest.length ≤ input.length := by
  induction input with
  | nil => intro i b; simp [readlineInner]
  | cons p rest ih =>
    intro i b
    cases p with
    | idle => simp [readlineInner]
    | byte c =>
      simp only [readlineInner, List.length_cons]
      split_ifs
      · exact Nat.le_succ_of_le (ih _ _)
      · exact Nat.le_succ_of_le (ih _ _)
      · simp
      · simp
      · exact Nat.le_succ_of_le (ih _ _)

theorem readlineInner_rest_lt (cfg : Config) (input : List Poll) :
    ∀ (replyidx : Nat) (buffer : List Char),
      (readlineInner cfg input replyidx buffer).replyidx ≠ replyidx →
      (readlineInner cfg input replyidx buffer).rest.length < input.length := by
  induction input with
  | nil => intro i b; simp [readlineInner]
  | cons p rest ih =>
    intro i b
    cases p with
    | idle => simp [readlineInner]
    | byte c =>
      simp only [readlineInner, List.length_cons]
      split_ifs
      · intro h; exact Nat.lt_succ_of_lt (ih _ _ h)
      · intro h; exact Nat.lt_succ_of_lt (ih _ _ h)
      · simp
      · simp
      · intro _; exact Nat.lt_succ_of_le (readlineInner_rest_le cfg rest _ _)

theorem readlineLoop_rest_le (cfg : Config) (timeout : Nat) :
    ∀ (input : List Poll) (replyidx : Nat) (buffer : List Char),
      (readlineLoop cfg timeout input replyidx buffer).rest.length ≤ input.length := by
  induction timeout with
  | zero => intro inp i b; simp [readlineLoop]
  | succ t ih =>
    intro inp i b
    simp only [readlineLoop]
    split_ifs
    · exact readlineInner_rest_le cfg inp i b
    · exact le_trans (ih _ _ _) (readlineInner_rest_le cfg inp i b)

theorem readlineLoop_rest_lt (cfg : Config) (timeout : Nat) :
    ∀ (input : List Poll) (replyidx : Nat) (buffer : List Char),
      (readlineLoop cfg timeout input replyidx buffer).replyidx ≠ replyidx →
      (readlineLoop cfg timeout input replyidx buffer).rest.length < input.length := by
  induction timeout with
  | zero => intro inp i b; simp [readlineLoop]
  | succ t ih =>
    intro inp i b
    simp only [readlineLoop]
    split_ifs
    · exact readlineInner_rest_lt cfg inp i b
    · intro h
      simp only at h ⊢
      by_cases h1 : (readlineInner cfg inp i b).replyidx = i
      · have h2 := ih (readlineInner cfg inp i b).rest (readlineInner cfg inp i b).replyidx
          (readlineInner cfg inp i b).buffer (fun e => h (e.trans h1))
        exact lt_of_lt_of_le h2 (readlineInner_rest_le cfg inp i b)
      · exact lt_of_le_of_lt (readlineLoop_rest_le cfg t _ _ _)
          (readlineInner_rest_lt cfg inp i b h1)

theorem readline_input_lt (cfg : Config) (timeout : Nat) (s : BLE)
    (h : (readline cfg timeout s).val ≠ 0) :
    (readline cfg timeout s).st.input.length < s.input.length :=
  readlineLoop_rest_lt cfg timeout s.input 0 s.buffer h

theorem waitForOKLoop_isSome (cfg : Config) (fuel : Nat) :
    ∀ s : BLE, s.input.length < fuel → (waitForOKLoop cfg fuel s).isSome = true := by
  induction fuel with
  | zero => intro s h; omega
  | succ n ih =>
    intro s h
    simp only [waitForOKLoop]
    split_ifs with h0 h1 h2
    · rfl
    · rfl
    · rfl
    · have := readline_input_lt cfg cfg.BLE_DEFAULT_TIMEOUT s h0
      simp [ih _ (by omega : (readline cfg cfg.BLE_DEFAULT_TIMEOUT s).st.input.length < n)]

theorem waitForOKLoop_fuel (cfg : Config) (fuel1 : Nat) :
    ∀ (fuel2 : Nat) (s : BLE), s.input.length < fuel1 → s.input.length < fuel2 →
      waitForOKLoop cfg fuel1 s = waitForOKLoop cfg fuel2 s := by
  induction fuel1 with
  | zero => intro f2 s h; omega
  | succ n ih =>
    intro f2 s h1 h2
    obtain ⟨m, rfl⟩ : ∃ m, f2 = m + 1 := ⟨f2 - 1, by omega⟩
    simp only [waitForOKLoop]
    split_ifs with h0
    · rfl
    · rfl
    · rfl
    · have := readline_input_lt cfg cfg.BLE_DEFAULT_TIMEOUT s h0
      rw [ih m _ (by omega) (by omega)]

theorem capturedLinesLoop_fuel (cfg : Config) (fuel1 : Nat) :
    ∀ (fuel2 : Nat) (s : BLE), s.input.length < fuel1 → s.input.length < fuel2 →
      capturedLinesLoop cfg fuel1 s = capturedLinesLoop cfg fuel2 s := by
  induction fuel1 with
  | zero => intro f2 s h; omega
  | succ n ih =>
    intro f2 s h1 h2
    obtain ⟨m, rfl⟩ : ∃ m, f2 = m + 1 := ⟨f2 - 1, by omega⟩
    simp only [capturedLinesLoop]
    split_ifs with h0
    · rfl
    · have := readline_input_lt cfg cfg.BLE_DEFAULT_TIMEOUT s h0
      rw [ih m _ (by omega) (by omega)]

theorem readlineInner_skip (cfg : Config) (lead : List Char) (rest : List Poll)
    (buffer : List Char) (h : ∀ c ∈ lead, c = '\r' ∨ c = '\n') :
    readlineInner cfg (avail lead ++ rest) 0 buffer = readlineInner cfg rest 0 buffer := by
  induction lead with
  | nil => rfl
  | cons c cs ih =>
    have hc := h c (List.mem_cons_self _ _)
    have ih1 := ih (fun d hd => h d (List.mem_cons_of_mem _ hd))
    simp only [avail, List.map_cons, List.cons_append, readlineInner] at ih1 ⊢
    rcases hc with hc | hc
    · simp [hc]; exact ih1
    · simp [hc]; exact ih1

theorem readlineInner_store (cfg : Config) (hB : cfg.BLE_BUFSIZE ≤ 65536) (rest : List Poll)
    (body : List Char) :
    ∀ (pre old tail : List Char), (∀ c ∈ body, c ≠ '\n') →
      old.length = (dropCR body).length →
      pre.length + (dropCR body).length < cfg.BLE_BUFSIZE - 1 →
      readlineInner cfg (avail body ++ rest) pre.length (pre ++ old ++ tail)
        = readlineInner cfg rest (pre.length + (dropCR body).length)
            (pre ++ dropCR body ++ tail) := by
  induction body with
  | nil =>
    intro pre old tail _ ho _
    simp [dropCR] at ho
    simp [avail, dropCR, ho]
  | cons c cs ih =>
    intro pre old tail hn ho hlen
    have hn1 : ∀ d ∈ cs, d ≠ '\n' := fun d hd => hn d (List.mem_cons_of_mem _ hd)
    have hc : c ≠ '\n' := hn c (List.mem_cons_self _ _)
    by_cases hr : c = '\r'
    · subst hr
      have e : dropCR ('\r' :: cs) = dropCR cs := by simp [dropCR]
      rw [e] at ho hlen ⊢
      simp only [avail, List.map_cons, List.cons_append, readlineInner, if_true]
      exact ih pre old tail hn1 ho hlen
    · have e : dropCR (c :: cs) = c :: dropCR cs := by simp [dropCR, hr]
      rw [e] at ho hlen ⊢
      simp only [List.length_cons] at ho hlen
      obtain ⟨o, old1, rfl⟩ : ∃ o old1, old = o :: old1 := by
        cases old with
        | nil => simp at ho
        | cons o old1 => exact ⟨o, old1, rfl⟩
      simp only [List.length_cons, Nat.add_right_cancel_iff] at ho
      have hmod : (pre.length + 1) % 65536 = pre.length + 1 := Nat.mod_eq_of_lt (by omega)
      have hlt : ¬ (pre.length + 1 ≥ cfg.BLE_BUFSIZE - 1) := by omega
      have hset : (pre ++ o :: old1 ++ tail).set pre.length c = (pre ++ [c]) ++ old1 ++ tail := by
        simp
      simp only [avail, List.map_cons, List.cons_append, readlineInner, if_neg hr, if_neg hc,
        hmod, if_neg hlt, hset]
      have := ih (pre ++ [c]) old1 tail hn1 ho (by simp; omega)
      simp only [List.length_append, List.length_singleton, avail] at this
      refine Eq.trans this ?_
      simp [Nat.add_assoc, Nat.add_comm 1]


theorem cstr_take_set_NUL (buf : List Char) :
    ∀ n : Nat, cstr ((buf.set n NUL).take n) = cstr (buf.set n NUL) := by
  induction buf with
  | nil => intro n; simp
  | cons b bs ih =>
    intro n
    cases n with
    | zero => simp [cstr]
    | succ k =>
      have := ih k
      simp only [cstr] at this
      by_cases hb : (b != NUL) = true
      · simp [cstr, List.takeWhile_cons, hb, this]
      · simp [cstr, List.takeWhile_cons, hb]

theorem readline_cstr_take (cfg : Config) (timeout : Nat) (s : BLE) :
    cstr ((readline cfg timeout s).st.buffer.take (readline cfg timeout s).val)
      = cstr (readline cfg timeout s).st.buffer :=
  cstr_take_set_NUL _ _

theorem waitForOKLoop_spec (cfg : Config) (fuel : Nat) :
    ∀ s : BLE, s.input.length < fuel →
      ∃ o, waitForOKLoop cfg fuel s = some o ∧
        (o.val = true ↔ ∃ pre post,
          (capturedLinesLoop cfg fuel s).map cstr = pre ++ lit "OK" :: post ∧
            lit "ERROR" ∉ pre) := by
  induction fuel with
  | zero => intro s h; omega
  | succ n ih =>
    intro s h
    have hc := readline_cstr_take cfg cfg.BLE_DEFAULT_TIMEOUT s
    simp only [waitForOKLoop, capturedLinesLoop]
    by_cases h0 : (readline cfg cfg.BLE_DEFAULT_TIMEOUT s).val = 0
    · simp [h0]
    · simp only [if_neg h0, List.map_cons, hc]
      by_cases h1 : cstr (readline cfg cfg.BLE_DEFAULT_TIMEOUT s).st.buffer = lit "OK"
      · refine ⟨_, by rw [if_pos h1], ?_⟩
        simp only [true_iff]
        exact ⟨[], _, by rw [h1]; rfl, by simp⟩
      · by_cases h2 : cstr (readline cfg cfg.BLE_DEFAULT_TIMEOUT s).st.buffer = lit "ERROR"
        · refine ⟨_, by rw [if_neg h1, if_pos h2], ?_⟩
          simp only [Bool.false_eq_true, false_iff]
          rintro ⟨pre, post, he, hne⟩
          cases pre with
          | nil =>
            simp only [List.nil_append, List.cons.injEq] at he
            exact h1 he.1
          | cons p ps =>
            simp only [List.cons_append, List.cons.injEq] at he
            exact hne (by rw [← he.1, h2]; exact List.mem_cons_self _ _)
        · have hlt := readline_input_lt cfg cfg.BLE_DEFAULT_TIMEOUT s h0
          obtain ⟨o, ho, hiff⟩ := ih (readline cfg cfg.BLE_DEFAULT_TIMEOUT s).st (by omega)
          refine ⟨_, by rw [if_neg h1, if_neg h2, ho]; rfl, ?_⟩
          simp only
          rw [hiff]
          constructor
          · rintro ⟨pre, post, he, hne⟩
            refine ⟨_ :: pre, post, by rw [he]; rfl, ?_⟩
            simp only [List.mem_cons, not_or]
            exact ⟨fun e => h2 e.symm, hne⟩
          · rintro ⟨pre, post, he, hne⟩
            cases pre with
            | nil =>
              simp only [List.nil_append, List.cons.injEq] at he
              exact absurd he.1 h1
            | cons p ps =>
              simp only [List.cons_append, List.cons.injEq] at he
              exact ⟨ps, post, he.2, fun hm => hne (List.mem_cons_of_mem _ hm)⟩

/-- C1 (as amended): `waitForOK` returns true exactly when, among the lines
captured by successive `readline()` calls before the first call that returns 0,
there is a line whose bytes before its first NUL are exactly `"OK"` and no
earlier line whose bytes before its first NUL are exactly `"ERROR"`; in every
other case (an `"ERROR"` first, or no sentinel before the call that returns 0) it
returns false, and the other lines have no influence. -/
theorem waitForOK_true_iff (cfg : Config) (s : BLE) :
    (waitForOK cfg s).val = true ↔
      ∃ pre post, (capturedLines cfg s).map cstr = pre ++ lit "OK" :: post ∧
        lit "ERROR" ∉ pre := by
  obtain ⟨o, ho, hiff⟩ := waitForOKLoop_spec cfg (s.input.length + 1) s (Nat.lt_succ_self _)
  simp only [waitForOK, capturedLines, ho, Option.getD_some]
  exact hiff


theorem readlineInner_newline (cfg : Config) (rest : List Poll) (replyidx : Nat)
    (buffer : List Char) :
    readlineInner cfg (Poll.byte '\n' :: rest) replyidx buffer
      = if replyidx = 0 then readlineInner cfg rest replyidx buffer
        else ⟨rest, replyidx, buffer, true⟩ := by
  simp [readlineInner]

theorem readlineInner_line (cfg : Config) (hB : cfg.BLE_BUFSIZE ≤ 65536)
    (lead body : List Char) (rest : List Poll) (buffer : List Char)
    (hlead : ∀ c ∈ lead, c = '\r' ∨ c = '\n') (hbody : ∀ c ∈ body, c ≠ '\n')
    (hne : dropCR body ≠ []) (hlen : (dropCR body).length < cfg.BLE_BUFSIZE - 1)
    (hbuf : buffer.length = cfg.BLE_BUFSIZE) :
    readlineInner cfg (avail lead ++ (avail body ++ Poll.byte '\n' :: rest)) 0 buffer
      = ⟨rest, (dropCR body).length,
          dropCR body ++ buffer.drop (dropCR body).length, true⟩ := by
  rw [readlineInner_skip cfg lead _ buffer hlead]
  have h := readlineInner_store cfg hB (Poll.byte '\n' :: rest) body []
    (buffer.take (dropCR body).length) (buffer.drop (dropCR body).length) hbody
    (by rw [List.length_take]; omega) (by simpa using hlen)
  simp only [List.nil_append, List.length_nil, Nat.zero_add, List.take_append_drop] at h
  rw [h, readlineInner_newline]
  have : (dropCR body).length ≠ 0 := by
    intro e; exact hne (List.length_eq_zero.mp e)
  rw [if_neg this]

theorem readline_line (cfg : Config) (hB : cfg.BLE_BUFSIZE ≤ 65536) (timeout : Nat)
    (ht : 1 ≤ timeout) (lead body : List Char) (rest : List Poll) (buffer : List Char)
    (verbose : Bool)
    (hlead : ∀ c ∈ lead, c = '\r' ∨ c = '\n') (hbody : ∀ c ∈ body, c ≠ '\n')
    (hne : dropCR body ≠ []) (hlen : (dropCR body).length < cfg.BLE_BUFSIZE - 1)
    (hbuf : buffer.length = cfg.BLE_BUFSIZE) :
    readline cfg timeout ⟨avail lead ++ (avail body ++ Poll.byte '\n' :: rest), buffer, verbose⟩
      = ⟨(dropCR body).length,
          ⟨rest, dropCR body ++ NUL :: buffer.drop ((dropCR body).length + 1), verbose⟩,
          []⟩ := by
  obtain ⟨t, rfl⟩ : ∃ t, timeout = t + 1 := ⟨timeout - 1, by omega⟩
  have hd : (dropCR body).length < buffer.length := by omega
  simp only [readline, readlineLoop,
    readlineInner_line cfg hB lead body rest buffer hlead hbody hne hlen hbuf, true_or, if_true]
  congr 2
  rw [List.set_append_right _ _ (le_refl _), Nat.sub_self]
  congr 1
  rw [List.drop_eq_getElem_cons hd]
  rfl



theorem dropCR_append (a b : List Char) : dropCR (a ++ b) = dropCR a ++ dropCR b := by
  simp [dropCR]

/-- C1 (witness): the stream that emits `"\n"`, then `"hello\n"`, then `"OK\n"`
makes `waitForOK` return true; `"hello"` is discarded. -/
theorem waitForOK_true_iff_witness :
    (waitForOK exampleConfig (start exampleConfig
      (avail (lit "\n") ++ Poll.idle :: avail (lit "hello\n") ++ Poll.idle :: avail (lit "OK\n")))).val
      = true :=
  (waitForOK_true_iff exampleConfig _).mpr ⟨[lit "hello"], [], by decide, by decide⟩

/-- C1 (counterexample to the claim as stated): on the received bytes
`'O','K',NUL,'?','\n'` `waitForOK` returns true although the only captured line,
`'O','K',NUL,'?'`, is not equal to `"OK"`. -/
theorem waitForOK_exact_line_counterexample :
    ¬ ((waitForOK exampleConfig (start exampleConfig (avail ['O', 'K', NUL, '?', '\n']))).val = true ↔
        ∃ pre post, capturedLines exampleConfig
            (start exampleConfig (avail ['O', 'K', NUL, '?', '\n'])) = pre ++ lit "OK" :: post ∧
          lit "ERROR" ∉ pre) := by
  have h1 : (waitForOK exampleConfig
      (start exampleConfig (avail ['O', 'K', NUL, '?', '\n']))).val = true := by decide
  have h2 : capturedLines exampleConfig (start exampleConfig (avail ['O', 'K', NUL, '?', '\n']))
      = [['O', 'K', NUL, '?']] := by decide
  rw [h1, h2]
  simp only [true_iff]
  rintro ⟨pre, post, he, -⟩
  cases pre with
  | nil =>
    simp only [List.nil_append, List.cons.injEq] at he
    exact absurd he.1 (by decide)
  | cons p ps =>
    have := congrArg List.length he
    simp at this

/-- C2: on the fully available input `body ++ "\r\n"`, where `body` has no
`'\n'`, begins with a byte other than `'\r'` and has fewer than `BLE_BUFSIZE-1`
bytes other than `'\r'`, `readline` with `timeout >= 1` returns the number of
bytes of `body` other than `'\r'` and leaves in the buffer `body` without its
`'\r'` bytes (wherever they are), followed by a NUL. -/
theorem readline_crlf_line (cfg : Config) (hB : cfg.BLE_BUFSIZE ≤ 65536) (timeout : Nat)
    (ht : 1 ≤ timeout) (s : BLE) (body : List Char)
    (hbuf : s.buffer.length = cfg.BLE_BUFSIZE)
    (hin : s.input = avail (body ++ ['\r', '\n']))
    (hnl : ∀ c ∈ body, c ≠ '\n')
    (hhead : ∃ c cs, body = c :: cs ∧ c ≠ '\r')
    (hlen : (dropCR body).length < cfg.BLE_BUFSIZE - 1) :
    (readline cfg timeout s).val = (dropCR body).length ∧
      (readline cfg timeout s).st.buffer.take ((dropCR body).length + 1)
        = dropCR body ++ [NUL] := by
  have hd : dropCR (body ++ ['\r']) = dropCR body := by
    rw [dropCR_append]; simp [dropCR]
  have hne : dropCR (body ++ ['\r']) ≠ [] := by
    obtain ⟨c, cs, rfl, hc⟩ := hhead
    simp [dropCR, hc]
  have hnl1 : ∀ c ∈ body ++ ['\r'], c ≠ '\n' := by
    intro c hc
    rcases List.mem_append.mp hc with h | h
    · exact hnl c h
    · rw [List.mem_singleton.mp h]; decide
  have key := readline_line cfg hB timeout ht [] (body ++ ['\r']) [] s.buffer s._verbose
    (by simp) hnl1 hne (by rw [hd]; exact hlen) hbuf
  have hs : s = ⟨avail [] ++ (avail (body ++ ['\r']) ++ [Poll.byte '\n']), s.buffer, s._verbose⟩ := by
    cases s
    simp only [BLE.mk.injEq, and_true] at hin ⊢
    rw [hin]; simp [avail]
  rw [hs, key, hd]
  simp [List.take_append_eq_append_take]

/-- C2 (witness): the line `"A\rBC\r\n"` gives 3 and `"ABC"` followed by NUL. -/
theorem readline_crlf_line_witness :
    (readline exampleConfig 250 (start exampleConfig (avail (lit "A\rBC\r\n")))).val = 3 ∧
      (readline exampleConfig 250 (start exampleConfig (avail (lit "A\rBC\r\n")))).st.buffer.take 4
        = ['A', 'B', 'C', NUL] :=
  readline_crlf_line exampleConfig (by decide) 250 (by decide)
    (start exampleConfig (avail (lit "A\rBC\r\n"))) (lit "A\rBC") (by decide) (by decide)
    (by decide) ⟨'A', lit "\rBC", by decide, by decide⟩ (by decide)

/-- C3: a `'\n'` at the very start of a read cycle is skipped and does not end
the line: with `timeout >= 1`, `readline` on `'\n'` followed by the stream `s`
returns the same count and leaves the same buffer (and the same unread rest of
the stream, after the same delays) as `readline` on `s` alone. -/
theorem readline_leading_newline (cfg : Config) (timeout : Nat) (ht : 1 ≤ timeout) (s : BLE) :
    (readline cfg timeout { s with input := Poll.byte '\n' :: s.input }).val
        = (readline cfg timeout s).val ∧
      (readline cfg timeout { s with input := Poll.byte '\n' :: s.input }).st.buffer
        = (readline cfg timeout s).st.buffer ∧
      (readline cfg timeout { s with input := Poll.byte '\n' :: s.input }).st.input
        = (readline cfg timeout s).st.input ∧
      (readline cfg timeout { s with input := Poll.byte '\n' :: s.input }).trace
        = (readline cfg timeout s).trace := by
  obtain ⟨t, rfl⟩ : ∃ t, timeout = t + 1 := ⟨timeout - 1, by omega⟩
  have h : ∀ buffer, readlineLoop cfg (t + 1) (Poll.byte '\n' :: s.input) 0 buffer
      = readlineLoop cfg (t + 1) s.input 0 buffer := by
    intro buffer
    simp only [readlineLoop, readlineInner_newline, if_true]
  simp only [readline, h, and_self]

/-- C3 (witness): `"\nhi\n"` and `"hi\n"` both give 2 and the same buffer. -/
theorem readline_leading_newline_witness :
    (readline exampleConfig 250
        { start exampleConfig (avail (lit "hi\n")) with
          input := Poll.byte '\n' :: (start exampleConfig (avail (lit "hi\n"))).input }).val
        = (readline exampleConfig 250 (start exampleConfig (avail (lit "hi\n")))).val ∧
      (readline exampleConfig 250 (start exampleConfig (avail (lit "hi\n")))).val = 2 :=
  ⟨(readline_leading_newline exampleConfig 250 (by decide)
      (start exampleConfig (avail (lit "hi\n")))).1, by decide⟩


/-- C4 (counterexample to the claim as stated): in `"\n\nab\n"` the second
newline is read after the first character of the call, yet the call does not stop
there with the empty line: it goes on to the third newline and returns 2. -/
theorem readline_second_newline_counterexample :
    (readline exampleConfig 250 (start exampleConfig (avail (lit "\n\nab\n")))).val = 2 ∧
      (readline exampleConfig 250 (start exampleConfig (avail (lit "\n\nab\n")))).st.input = [] ∧
      ¬ ((readline exampleConfig 250 (start exampleConfig (avail (lit "\n\nab\n")))).val = 0 ∧
        (readline exampleConfig 250 (start exampleConfig (avail (lit "\n\nab\n")))).st.input
          = avail (lit "ab\n")) := by
  decide

/-- C4 (as amended): a newline is skipped exactly when no byte has been stored in
the buffer yet during the call (`replyidx == 0`), whether or not it is the first
character seen; a newline read once a byte has been stored ends the line at
once.  First part: the law of the loop, for every remaining input, at any point
where the loop is running.  Second part: on a fully available line, the bytes
`'\r'`, `'\n'` in front of the first stored byte are all skipped, and `readline`
stops at the first newline behind it, returning what is accumulated and leaving
the rest unread. -/
theorem readline_newline_rule (cfg : Config) :
    (∀ (timeout : Nat) (rest : List Poll) (replyidx : Nat) (buffer : List Char),
      readlineLoop cfg (timeout + 1) (Poll.byte '\n' :: rest) replyidx buffer
        = if replyidx = 0 then readlineLoop cfg (timeout + 1) rest replyidx buffer
          else ⟨rest, replyidx, buffer, []⟩) ∧
    (∀ (timeout : Nat) (lead body : List Char) (rest : List Poll) (s : BLE),
      cfg.BLE_BUFSIZE ≤ 65536 → 1 ≤ timeout → s.buffer.length = cfg.BLE_BUFSIZE →
      s.input = avail lead ++ (avail body ++ Poll.byte '\n' :: rest) →
      (∀ c ∈ lead, c = '\r' ∨ c = '\n') → (∀ c ∈ body, c ≠ '\n') →
      dropCR body ≠ [] → (dropCR body).length < cfg.BLE_BUFSIZE - 1 →
      (readline cfg timeout s).val = (dropCR body).length ∧
        (readline cfg timeout s).st.input = rest ∧
        (readline cfg timeout s).st.buffer.take ((dropCR body).length + 1)
          = dropCR body ++ [NUL]) := by
  constructor
  · intro timeout rest replyidx buffer
    by_cases h : replyidx = 0
    · simp only [readlineLoop, readlineInner_newline, if_pos h]
    · simp only [readlineLoop, readlineInner_newline, if_neg h, true_or, if_true]
  · intro timeout lead body rest s hB ht hbuf hin hlead hbody hne hlen
    have key := readline_line cfg hB timeout ht lead body rest s.buffer s._verbose
      hlead hbody hne hlen hbuf
    have hs : s = ⟨avail lead ++ (avail body ++ Poll.byte '\n' :: rest), s.buffer, s._verbose⟩ := by
      cases s
      simp only [BLE.mk.injEq, and_true] at hin ⊢
      exact hin
    rw [hs, key]
    simp [List.take_append_eq_append_take]

/-- C4 (witness): in `"\n\r\nab\ncd\n"` the three bytes in front of `a` are
skipped, the newline behind `b` ends the line, and `"cd\n"` is left unread. -/
theorem readline_newline_rule_witness :
    (readline exampleConfig 250 (start exampleConfig (avail (lit "\n\r\nab\ncd\n")))).val = 2 ∧
      (readline exampleConfig 250 (start exampleConfig (avail (lit "\n\r\nab\ncd\n")))).st.input
        = avail (lit "cd\n") ∧
      (readline exampleConfig 250
        (start exampleConfig (avail (lit "\n\r\nab\ncd\n")))).st.buffer.take 3
        = ['a', 'b', NUL] :=
  (readline_newline_rule exampleConfig).2 250 (lit "\n\r\n") (lit "ab") (avail (lit "cd\n"))
    (start exampleConfig (avail (lit "\n\r\nab\ncd\n")))
    (by decide) (by decide) (by decide) (by decide) (by decide) (by decide) (by decide)
    (by decide)

theorem readline_full (cfg : Config) (hB2 : 2 ≤ cfg.BLE_BUFSIZE) (hB : cfg.BLE_BUFSIZE ≤ 65536)
    (timeout : Nat) (ht : 1 ≤ timeout) (lead mid : List Char) (c : Char) (rest : List Poll)
    (buffer : List Char) (verbose : Bool)
    (hlead : ∀ d ∈ lead, d = '\r' ∨ d = '\n') (hmid : ∀ d ∈ mid, d ≠ '\n')
    (hc : c ≠ '\r' ∧ c ≠ '\n') (hlen : (dropCR mid).length + 1 = cfg.BLE_BUFSIZE - 1)
    (hbuf : buffer.length = cfg.BLE_BUFSIZE) :
    readline cfg timeout ⟨avail lead ++ (avail mid ++ Poll.byte c :: rest), buffer, verbose⟩
      = ⟨cfg.BLE_BUFSIZE - 1, ⟨rest, dropCR mid ++ [c, NUL], verbose⟩, []⟩ := by
  obtain ⟨t, rfl⟩ : ∃ t, timeout = t + 1 := ⟨timeout - 1, by omega⟩
  have h := readlineInner_store cfg hB (Poll.byte c :: rest) mid []
    (buffer.take (dropCR mid).length) (buffer.drop (dropCR mid).length) hmid
    (by rw [List.length_take]; omega) (by simp only [List.length_nil]; omega)
  simp only [List.nil_append, List.length_nil, Nat.zero_add, List.take_append_drop] at h
  have hmod : ((dropCR mid).length + 1) % 65536 = (dropCR mid).length + 1 :=
    Nat.mod_eq_of_lt (by omega)
  have hge : (dropCR mid).length + 1 ≥ cfg.BLE_BUFSIZE - 1 := by omega
  have hd : (dropCR mid).length < buffer.length := by omega
  have hd1 : (dropCR mid).length + 1 < buffer.length := by omega
  have hdrop : buffer.drop ((dropCR mid).length + 1 + 1) = [] :=
    List.drop_eq_nil_of_le (by omega)
  have hinner : readlineInner cfg (avail lead ++ (avail mid ++ Poll.byte c :: rest)) 0 buffer
      = ⟨rest, (dropCR mid).length + 1,
          dropCR mid ++ c :: buffer.drop ((dropCR mid).length + 1), true⟩ := by
    rw [readlineInner_skip cfg lead _ buffer hlead, h]
    simp only [readlineInner, if_neg hc.1, if_neg hc.2, hmod, if_pos hge]
    congr 1
    rw [List.set_append_right _ _ (le_refl _), Nat.sub_self, List.drop_eq_getElem_cons hd]
    rfl
  simp only [readline, readlineLoop, hinner, true_or, if_true]
  have hcount : (dropCR mid).length + 1 = cfg.BLE_BUFSIZE - 1 := hlen
  rw [← hcount]
  congr 2
  rw [List.set_append_right _ _ (by omega)]
  have e : (dropCR mid).length + 1 - (dropCR mid).length = 1 := by omega
  rw [e, List.drop_eq_getElem_cons hd1, hdrop]
  rfl

/-- C5: on a fully available input on which `BLE_BUFSIZE-1` bytes other than
`'\r'` and `'\n'` are read before any terminating newline, `readline` with
`timeout >= 1` returns `BLE_BUFSIZE-1` (the plain count of a line, there is no
error result), the buffer holds those bytes in order followed by NUL, and
the call stops right behind the last of them, without any delay: every later
byte of the stream is left unread. -/
theorem readline_overflow (cfg : Config) (hB2 : 2 ≤ cfg.BLE_BUFSIZE)
    (hB : cfg.BLE_BUFSIZE ≤ 65536) (timeout : Nat) (ht : 1 ≤ timeout) (s : BLE)
    (lead mid : List Char) (c : Char) (rest : List Poll)
    (hbuf : s.buffer.length = cfg.BLE_BUFSIZE)
    (hin : s.input = avail lead ++ (avail mid ++ Poll.byte c :: rest))
    (hlead : ∀ d ∈ lead, d = '\r' ∨ d = '\n') (hmid : ∀ d ∈ mid, d ≠ '\n')
    (hc : c ≠ '\r' ∧ c ≠ '\n') (hlen : (dropCR mid).length + 1 = cfg.BLE_BUFSIZE - 1) :
    (readline cfg timeout s).val = cfg.BLE_BUFSIZE - 1 ∧
      (readline cfg timeout s).val ≠ 0 ∧
      (readline cfg timeout s).st.buffer = dropCR mid ++ [c, NUL] ∧
      (readline cfg timeout s).st.input = rest ∧
      (readline cfg timeout s).trace = [] := by
  have key := readline_full cfg hB2 hB timeout ht lead mid c rest s.buffer s._verbose
    hlead hmid hc hlen hbuf
  have hs : s = ⟨avail lead ++ (avail mid ++ Poll.byte c :: rest), s.buffer, s._verbose⟩ := by
    cases s
    simp only [BLE.mk.injEq, and_true] at hin ⊢
    exact hin
  rw [hs, key]
  refine ⟨rfl, ?_, rfl, rfl, rfl⟩
  simp only
  omega

/-- C5 (witness): with a buffer of 4 bytes, `"\nab\rcdef\n"` gives 3, the buffer
`"abc"` with its NUL, and `"def\n"` left unread. -/
theorem readline_overflow_witness :
    (readline ⟨4, 250⟩ 250 (start ⟨4, 250⟩ (avail (lit "\nab\rcdef\n")))).val = 3 ∧
      (readline ⟨4, 250⟩ 250 (start ⟨4, 250⟩ (avail (lit "\nab\rcdef\n")))).val ≠ 0 ∧
      (readline ⟨4, 250⟩ 250 (start ⟨4, 250⟩ (avail (lit "\nab\rcdef\n")))).st.buffer
        = ['a', 'b', 'c', NUL] ∧
      (readline ⟨4, 250⟩ 250 (start ⟨4, 250⟩ (avail (lit "\nab\rcdef\n")))).st.input
        = avail (lit "def\n") ∧
      (readline ⟨4, 250⟩ 250 (start ⟨4, 250⟩ (avail (lit "\nab\rcdef\n")))).trace = [] :=
  readline_overflow ⟨4, 250⟩ (by decide) (by decide) 250 (by decide)
    (start ⟨4, 250⟩ (avail (lit "\nab\rcdef\n"))) (lit "\n") (lit "ab\r") 'c'
    (avail (lit "def\n")) (by decide) (by decide) (by decide) (by decide) (by decide)
    (by decide)


theorem strtol_eq_zero (text : List Char) (h : numericStart text = false) :
    strtol text 0 = 0 := by
  unfold numericStart at h
  unfold strtol
  generalize List.dropWhile isspace text = s1 at h ⊢
  simp only at h ⊢
  generalize (if s1.head? = some '-' ∨ s1.head? = some '+' then s1.tail else s1) = s2 at h ⊢
  have hz : ∀ (p : Prop) [Decidable p], (if p then max LONG_MIN (-((0 : Nat) : Int))
      else min LONG_MAX ((0 : Nat) : Int)) = 0 := by
    intro p _; split_ifs <;> decide
  cases s2 with
  | nil =>
    simp only [List.head?_nil, digitsValue, reduceCtorEq, decide_False, Bool.false_and,
      Bool.false_eq_true, and_false, if_false]
    exact hz _
  | cons c cs =>
    simp only [List.head?_cons] at h
    have hc0 : c ≠ '0' := by
      rintro rfl
      exact absurd h (by decide)
    have hd : digitsValue 10 (c :: cs) 0 = 0 := by
      simp only [digitsValue]
      simp only [isDigitOf] at h
      cases hv : digitValue c with
      | none => rfl
      | some d =>
        rw [hv] at h
        simp only [decide_eq_false_iff_not] at h
        simp [h]
    simp only [List.head?_cons, Option.some.injEq, hc0, decide_False, Bool.false_and,
      Bool.false_eq_true, and_false, if_false, true_and, if_true, hd]
    exact hz _



/-- C6: `readline_parseInt` returns 26 when the captured line is `"0x1A"`, 42
when it is `"42"`, 0 when it is `"abc"`, 0 when `readline` captures no byte, and
0 whenever the text of the captured line has no numeric prefix. -/
theorem readline_parseInt_values (cfg : Config) (s : BLE) :
    ((readline cfg cfg.BLE_DEFAULT_TIMEOUT s).st.buffer.take
        (readline cfg cfg.BLE_DEFAULT_TIMEOUT s).val = lit "0x1A" →
      (readline_parseInt cfg s).val = 26) ∧
    ((readline cfg cfg.BLE_DEFAULT_TIMEOUT s).st.buffer.take
        (readline cfg cfg.BLE_DEFAULT_TIMEOUT s).val = lit "42" →
      (readline_parseInt cfg s).val = 42) ∧
    ((readline cfg cfg.BLE_DEFAULT_TIMEOUT s).st.buffer.take
        (readline cfg cfg.BLE_DEFAULT_TIMEOUT s).val = lit "abc" →
      (readline_parseInt cfg s).val = 0) ∧
    ((readline cfg cfg.BLE_DEFAULT_TIMEOUT s).val = 0 → (readline_parseInt cfg s).val = 0) ∧
    (numericStart (cstr (readline cfg cfg.BLE_DEFAULT_TIMEOUT s).st.buffer) = false →
      (readline_parseInt cfg s).val = 0) := by
  have hc := readline_cstr_take cfg cfg.BLE_DEFAULT_TIMEOUT s
  have hv : ∀ text : List Char, text ≠ [] →
      (readline cfg cfg.BLE_DEFAULT_TIMEOUT s).st.buffer.take
        (readline cfg cfg.BLE_DEFAULT_TIMEOUT s).val = text →
      (readline_parseInt cfg s).val = strtol (cstr text) 0 := by
    intro text hne h
    have h0 : (readline cfg cfg.BLE_DEFAULT_TIMEOUT s).val ≠ 0 := by
      intro e
      rw [e, List.take_zero] at h
      exact hne h.symm
    rw [h] at hc
    simp only [readline_parseInt, if_neg h0, hc]
  refine ⟨fun h => ?_, fun h => ?_, fun h => ?_, fun h => ?_, fun h => ?_⟩
  · rw [hv _ (by decide) h]; decide
  · rw [hv _ (by decide) h]; decide
  · rw [hv _ (by decide) h]; decide
  · simp only [readline_parseInt, if_pos h]
  · by_cases h0 : (readline cfg cfg.BLE_DEFAULT_TIMEOUT s).val = 0
    · simp only [readline_parseInt, if_pos h0]
    · simp only [readline_parseInt, if_neg h0]
      exact strtol_eq_zero _ h

/-- C6 (witness): the replies `"0x1A\r\n"`, `"42\r\n"`, `"abc\r\n"` and a silent
stream give 26, 42, 0 and 0. -/
theorem readline_parseInt_values_witness :
    (readline_parseInt exampleConfig (start exampleConfig (avail (lit "0x1A\r\n")))).val = 26 ∧
      (readline_parseInt exampleConfig (start exampleConfig (avail (lit "42\r\n")))).val = 42 ∧
      (readline_parseInt exampleConfig (start exampleConfig (avail (lit "abc\r\n")))).val = 0 ∧
      (readline_parseInt exampleConfig (start exampleConfig [])).val = 0 ∧
      (readline_parseInt exampleConfig (start exampleConfig (avail (lit "+-7\r\n")))).val = 0 :=
  ⟨(readline_parseInt_values exampleConfig _).1 (by decide),
    (readline_parseInt_values exampleConfig _).2.1 (by decide),
    (readline_parseInt_values exampleConfig _).2.2.1 (by decide),
    (readline_parseInt_values exampleConfig _).2.2.2.1 (by decide),
    (readline_parseInt_values exampleConfig _).2.2.2.2 (by decide)⟩

theorem readlineLoop_trace (cfg : Config) (timeout : Nat) :
    ∀ (input : List Poll) (replyidx : Nat) (buffer : List Char),
      ∀ e ∈ (readlineLoop cfg timeout input replyidx buffer).trace, e = Event.delay 1 := by
  induction timeout with
  | zero => intro inp i b e he; simp [readlineLoop] at he
  | succ t ih =>
    intro inp i b e he
    simp only [readlineLoop] at he
    split_ifs at he
    · simp at he
    · simp only [List.mem_cons] at he
      rcases he with he | he
      · exact he
      · exact ih _ _ _ e he

theorem waitForOKLoop_trace (cfg : Config) (fuel : Nat) :
    ∀ (s : BLE) (o : Out Bool), waitForOKLoop cfg fuel s = some o →
      ∀ e ∈ o.trace, e = Event.delay 1 := by
  induction fuel with
  | zero => intro s o h; simp [waitForOKLoop] at h
  | succ n ih =>
    intro s o h e he
    have hr : ∀ e ∈ (readline cfg cfg.BLE_DEFAULT_TIMEOUT s).trace, e = Event.delay 1 :=
      readlineLoop_trace cfg _ _ _ _
    simp only [waitForOKLoop] at h
    split_ifs at h
    · simp only [Option.some.injEq] at h; subst h; exact hr e he
    · simp only [Option.some.injEq] at h; subst h; exact hr e he
    · simp only [Option.some.injEq] at h; subst h; exact hr e he
    · simp only [Option.map_eq_some'] at h
      obtain ⟨o1, ho1, rfl⟩ := h
      simp only [List.mem_append] at he
      rcases he with he | he
      · exact hr e he
      · exact ih _ o1 ho1 e he

theorem waitForOK_trace (cfg : Config) (s : BLE) :
    ∀ e ∈ (waitForOK cfg s).trace, e = Event.delay 1 ∨ e = Event.serial (lit "\n<- ") := by
  intro e he
  have hsome := waitForOKLoop_isSome cfg (s.input.length + 1) s (Nat.lt_succ_self _)
  obtain ⟨o, ho⟩ := Option.isSome_iff_exists.mp hsome
  simp only [waitForOK, ho, Option.getD_some, List.mem_append] at he
  rcases he with he | he
  · right
    simp only [verbosePrompt] at he
    split_ifs at he
    · simpa using he
    · simp at he
  · left
    exact waitForOKLoop_trace cfg _ s o ho e he

theorem waitForOK_trace_count (cfg : Config) (s : BLE) (e : Event)
    (h1 : e ≠ Event.delay 1) (h2 : e ≠ Event.serial (lit "\n<- ")) :
    (waitForOK cfg s).trace.count e = 0 := by
  rw [List.count_eq_zero]
  intro hm
  rcases waitForOK_trace cfg s e hm with h | h
  · exact h1 h
  · exact h2 h


theorem sendCommandCheckOK_sent (cfg : Config) (cmd : List Char) (s : BLE) :
    commandsSent cmd (sendCommandCheckOK cfg cmd s).trace = 1 := by
  simp only [commandsSent, sendCommandCheckOK, println, List.count_append, List.count_singleton,
    beq_self_eq_true, if_true]
  rw [waitForOK_trace_count cfg s _ (by simp) (by simp)]

theorem resetLoop_fail (cfg : Config) (n : Nat) :
    ∀ (isOK : Bool) (s : BLE), 0 < n → (∀ k < n, attemptOK cfg (lit "ATZ") k s = false) →
      (resetLoop cfg n isOK s).val = false ∧
        (resetLoop cfg n isOK s).st = afterAttempts cfg (lit "ATZ") n s ∧
        commandsSent (lit "ATZ") (resetLoop cfg n isOK s).trace = n := by
  induction n with
  | zero => intro b s h; omega
  | succ m ih =>
    intro b s _ hall
    have h0 : (sendCommandCheckOK cfg (lit "ATZ") s).val = false := hall 0 (Nat.succ_pos _)
    have hrest : ∀ k < m, attemptOK cfg (lit "ATZ") k (sendCommandCheckOK cfg (lit "ATZ") s).st
        = false := fun k hk => hall (k + 1) (Nat.succ_lt_succ hk)
    simp only [resetLoop, h0, Bool.false_eq_true, if_false]
    cases m with
    | zero =>
      simp only [resetLoop, afterAttempts, List.append_nil, true_and]
      exact sendCommandCheckOK_sent cfg _ s
    | succ j =>
      obtain ⟨h1, h2, h3⟩ := ih false _ (Nat.succ_pos _) hrest
      refine ⟨h1, ?_, ?_⟩
      · rw [h2]; rfl
      · simp only [commandsSent, List.count_append] at h3 ⊢
        rw [h3]
        have := sendCommandCheckOK_sent cfg (lit "ATZ") s
        simp only [commandsSent] at this
        rw [this]; omega

theorem resetLoop_success (cfg : Config) (n : Nat) :
    ∀ (isOK : Bool) (s : BLE) (j : Nat), j < n → attemptOK cfg (lit "ATZ") j s = true →
      (∀ k < j, attemptOK cfg (lit "ATZ") k s = false) →
      (resetLoop cfg n isOK s).val = true ∧
        commandsSent (lit "ATZ") (resetLoop cfg n isOK s).trace = j + 1 := by
  induction n with
  | zero => intro b s j h; omega
  | succ m ih =>
    intro b s j hj hok hbefore
    cases j with
    | zero =>
      have h0 : (sendCommandCheckOK cfg (lit "ATZ") s).val = true := hok
      simp only [resetLoop, h0, if_true, true_and]
      exact sendCommandCheckOK_sent cfg _ s
    | succ i =>
      have h0 : (sendCommandCheckOK cfg (lit "ATZ") s).val = false := hbefore 0 (Nat.succ_pos _)
      obtain ⟨h1, h3⟩ := ih false (sendCommandCheckOK cfg (lit "ATZ") s).st i (by omega) hok
        (fun k hk => hbefore (k + 1) (Nat.succ_lt_succ hk))
      simp only [resetLoop, h0, Bool.false_eq_true, if_false]
      refine ⟨h1, ?_⟩
      simp only [commandsSent, List.count_append] at h3 ⊢
      rw [h3]
      have := sendCommandCheckOK_sent cfg (lit "ATZ") s
      simp only [commandsSent] at this
      rw [this]; omega

theorem afterAttempts_add (cfg : Config) (cmd : List Char) (a : Nat) :
    ∀ (b : Nat) (s : BLE),
      afterAttempts cfg cmd (a + b) s = afterAttempts cfg cmd b (afterAttempts cfg cmd a s) := by
  induction a with
  | zero => intro b s; simp [afterAttempts]
  | succ n ih =>
    intro b s
    have : n + 1 + b = (n + b) + 1 := by omega
    rw [this]
    simp only [afterAttempts]
    exact ih b _

theorem attemptOK_add (cfg : Config) (cmd : List Char) (a b : Nat) (s : BLE) :
    attemptOK cfg cmd b (afterAttempts cfg cmd a s) = attemptOK cfg cmd (a + b) s := by
  simp only [attemptOK, afterAttempts_add]


theorem first_success (f : Nat → Bool) (n : Nat) :
    (∀ k < n, f k = false) ∨ ∃ j < n, f j = true ∧ ∀ k < j, f k = false := by
  induction n with
  | zero => left; intro k hk; omega
  | succ m ih =>
    rcases ih with h | ⟨j, hj, h1, h2⟩
    · by_cases hm : f m = true
      · right; exact ⟨m, Nat.lt_succ_self _, hm, h⟩
      · left
        intro k hk
        rcases Nat.lt_succ_iff_lt_or_eq.mp hk with h3 | h3
        · exact h k h3
        · rw [h3]; simpa using hm
    · right; exact ⟨j, Nat.lt_succ_of_lt hj, h1, h2⟩

theorem reset_cases (cfg : Config) (s : BLE) :
    ((∀ k < 10, attemptOK cfg (lit "ATZ") k s = false) ∧ (reset cfg s).val = false ∧
        commandsSent (lit "ATZ") (reset cfg s).trace = 10) ∨
      ∃ j < 10, attemptOK cfg (lit "ATZ") j s = true ∧
        (∀ k < j, attemptOK cfg (lit "ATZ") k s = false) ∧ (reset cfg s).val = true ∧
        commandsSent (lit "ATZ") (reset cfg s).trace = j + 1 := by
  have hplus : List.count (Event.tx (lit "ATZ" ++ ['\r', '\n']))
      ([Event.delay 50] ++ println (lit "+++") ++ [Event.delay 50]) = 0 := by decide
  have hend : List.count (Event.tx (lit "ATZ" ++ ['\r', '\n']))
      [Event.delay 1000, Event.flush] = 0 := by decide
  rcases first_success (fun k => attemptOK cfg (lit "ATZ") k s) 5 with h | ⟨j, hj, h1, h2⟩
  · obtain ⟨a1, a2, a3⟩ := resetLoop_fail cfg 5 false s (by decide) h
    rcases first_success (fun k => attemptOK cfg (lit "ATZ") k (afterAttempts cfg (lit "ATZ") 5 s)) 5
      with g | ⟨i, hi, g1, g2⟩
    · obtain ⟨b1, b2, b3⟩ := resetLoop_fail cfg 5 false (afterAttempts cfg (lit "ATZ") 5 s)
        (by decide) g
      left
      refine ⟨?_, ?_, ?_⟩
      · intro k hk
        by_cases hk5 : k < 5
        · exact h k hk5
        · have := g (k - 5) (by omega)
          simp only [attemptOK_add] at this
          rwa [show 5 + (k - 5) = k by omega] at this
      · simp only [reset, a1, a2, b1, Bool.not_false, if_true]
      · simp only [commandsSent] at a3 b3
        simp only [reset, a1, a2, b1, Bool.not_false, if_true, commandsSent, List.count_append,
          List.append_assoc] at hplus ⊢
        rw [a3, b3]
        omega
    · obtain ⟨b1, b3⟩ := resetLoop_success cfg 5 false (afterAttempts cfg (lit "ATZ") 5 s) i hi
        g1 g2
      right
      refine ⟨5 + i, by omega, ?_, ?_, ?_, ?_⟩
      · simpa only [attemptOK_add] using g1
      · intro k hk
        by_cases hk5 : k < 5
        · exact h k hk5
        · have := g2 (k - 5) (by omega)
          simp only [attemptOK_add] at this
          rwa [show 5 + (k - 5) = k by omega] at this
      · simp only [reset, a1, a2, b1, Bool.not_false, Bool.not_true, if_true,
          Bool.false_eq_true, if_false]
      · simp only [commandsSent] at a3 b3
        simp only [reset, a1, a2, b1, Bool.not_false, Bool.not_true, if_true,
          Bool.false_eq_true, if_false, commandsSent, List.count_append,
          List.append_assoc] at hplus hend ⊢
        rw [a3, b3]
        omega
  · obtain ⟨b1, b3⟩ := resetLoop_success cfg 5 false s j hj h1 h2
    right
    refine ⟨j, by omega, h1, h2, ?_, ?_⟩
    · simp only [reset, b1, Bool.not_true, Bool.false_eq_true, if_false]
    · simp only [commandsSent] at b3
      simp only [reset, b1, Bool.not_true, Bool.false_eq_true, if_false, commandsSent,
        List.count_append] at hend ⊢
      rw [b3]
      omega

/-- C7: `reset` returns false exactly when ten consecutive attempts
`sendCommandCheckOK("ATZ")` all fail; it sends at most ten `"ATZ"` commands; when
the attempt number `j + 1` is the first that succeeds it returns true after
exactly `j + 1` commands (none is sent after the success); and when all ten
fail, as on a stream that never produces `"OK"`, exactly ten were sent. -/
theorem reset_spec (cfg : Config) (s : BLE) :
    ((reset cfg s).val = false ↔ ∀ k < 10, attemptOK cfg (lit "ATZ") k s = false) ∧
      commandsSent (lit "ATZ") (reset cfg s).trace ≤ 10 ∧
      (∀ j < 10, attemptOK cfg (lit "ATZ") j s = true →
        (∀ k < j, attemptOK cfg (lit "ATZ") k s = false) →
        (reset cfg s).val = true ∧ commandsSent (lit "ATZ") (reset cfg s).trace = j + 1) ∧
      ((∀ k < 10, attemptOK cfg (lit "ATZ") k s = false) →
        (reset cfg s).val = false ∧ commandsSent (lit "ATZ") (reset cfg s).trace = 10) := by
  rcases reset_cases cfg s with ⟨h, hv, hc⟩ | ⟨j, hj, h1, h2, hv, hc⟩
  · refine ⟨⟨fun _ => h, fun _ => hv⟩, by omega, ?_, fun _ => ⟨hv, hc⟩⟩
    intro i hi hok _
    rw [h i hi] at hok
    exact absurd hok (by decide)
  · refine ⟨⟨fun hf => ?_, fun hall => ?_⟩, by omega, ?_, fun hall => ?_⟩
    · rw [hv] at hf; exact absurd hf (by decide)
    · rw [hall j hj] at h1; exact absurd h1 (by decide)
    · intro i _ hok hbefore
      have hij : i = j := by
        rcases Nat.lt_trichotomy i j with hlt | heq | hgt
        · rw [h2 i hlt] at hok; exact absurd hok (by decide)
        · exact heq
        · rw [hbefore j hgt] at h1; exact absurd h1 (by decide)
      rw [hij]
      exact ⟨hv, hc⟩
    · rw [hall j hj] at h1; exact absurd h1 (by decide)

/-- C7 (witness): on a stream that never produces `"OK"` (two other lines, then
silence) every attempt fails, and `reset` returns false after ten commands. -/
theorem reset_spec_witness :
    (reset exampleConfig (start exampleConfig (avail (lit "x\nERROR\n")))).val = false ∧
      commandsSent (lit "ATZ")
        (reset exampleConfig (start exampleConfig (avail (lit "x\nERROR\n")))).trace = 10 :=
  (reset_spec exampleConfig (start exampleConfig (avail (lit "x\nERROR\n")))).2.2.2 (by decide)


/-- C8: `sendCommandWithIntReply` first writes the command followed by the line
terminator; `*reply` is the result of `readline_parseInt`, which consumes exactly
the first captured line (one `readline`), whatever that line is; the returned
flag is the result of `waitForOK` on the stream that remains after that line. -/
theorem sendCommandWithIntReply_spec (cfg : Config) (cmd : List Char) (s : BLE) :
    (sendCommandWithIntReply cfg cmd s).trace.head? = some (Event.tx (cmd ++ ['\r', '\n'])) ∧
      (sendCommandWithIntReply cfg cmd s).val.1 = (readline_parseInt cfg s).val ∧
      (readline_parseInt cfg s).st = (readline cfg cfg.BLE_DEFAULT_TIMEOUT s).st ∧
      (sendCommandWithIntReply cfg cmd s).val.2
        = (waitForOK cfg (readline cfg cfg.BLE_DEFAULT_TIMEOUT s).st).val ∧
      (sendCommandWithIntReply cfg cmd s).st
        = (waitForOK cfg (readline cfg cfg.BLE_DEFAULT_TIMEOUT s).st).st := by
  have hst : (readline_parseInt cfg s).st = (readline cfg cfg.BLE_DEFAULT_TIMEOUT s).st := by
    simp only [readline_parseInt]
    split_ifs <;> rfl
  refine ⟨rfl, rfl, hst, ?_, ?_⟩
  · simp only [sendCommandWithIntReply, hst]
  · simp only [sendCommandWithIntReply, hst]

/-- C8 (witness): the replies `"5\n"`, `"OK\n"` give `(5, true)`. -/
theorem sendCommandWithIntReply_spec_witness :
    (sendCommandWithIntReply exampleConfig (lit "AT+BLEGETRSSI")
      (start exampleConfig (avail (lit "5\n") ++ Poll.idle :: avail (lit "OK\n")))).val
      = (5, true) :=
  Prod.ext
    ((sendCommandWithIntReply_spec exampleConfig (lit "AT+BLEGETRSSI")
      (start exampleConfig (avail (lit "5\n") ++ Poll.idle :: avail (lit "OK\n")))).2.1.trans
      (by decide))
    ((sendCommandWithIntReply_spec exampleConfig (lit "AT+BLEGETRSSI")
      (start exampleConfig (avail (lit "5\n") ++ Poll.idle :: avail (lit "OK\n")))).2.2.2.1.trans
      (by decide))

/-- C9: `isConnected` writes the command `"AT+GAPGETCONN"` and returns true
exactly when the integer parsed from the first captured reply line is not zero;
it returns false when no line is captured.  What `waitForOK` finds afterwards
(`"OK"`, `"ERROR"` or nothing) has no part in the result. -/
theorem isConnected_spec (cfg : Config) (s : BLE) :
    (isConnected cfg s).trace.head?
        = some (Event.tx (lit "AT+GAPGETCONN" ++ ['\r', '\n'])) ∧
      ((isConnected cfg s).val = true ↔ (readline_parseInt cfg s).val ≠ 0) ∧
      ((readline cfg cfg.BLE_DEFAULT_TIMEOUT s).val = 0 → (isConnected cfg s).val = false) := by
  refine ⟨rfl, ?_, ?_⟩
  · simp only [isConnected, sendCommandWithIntReply, decide_eq_true_eq]
  · intro h
    simp only [isConnected, sendCommandWithIntReply, readline_parseInt, if_pos h, ne_eq,
      not_true_eq_false, decide_False]

/-- C9 (witness): the reply `1` makes `isConnected` true even when `"ERROR"`
follows; a silent stream makes it false. -/
theorem isConnected_spec_witness :
    (isConnected exampleConfig (start exampleConfig (avail (lit "1\r\nERROR\r\n")))).val = true ∧
      (isConnected exampleConfig (start exampleConfig [])).val = false :=
  ⟨(isConnected_spec exampleConfig (start exampleConfig (avail (lit "1\r\nERROR\r\n")))).2.1.mpr
      (by decide),
    (isConnected_spec exampleConfig (start exampleConfig [])).2.2 (by decide)⟩

theorem sendCommandCheckOK_count (cfg : Config) (cmd : List Char) (s : BLE) (e : Event)
    (h0 : e ≠ Event.tx (cmd ++ ['\r', '\n'])) (h1 : e ≠ Event.delay 1)
    (h2 : e ≠ Event.serial (lit "\n<- ")) :
    (sendCommandCheckOK cfg cmd s).trace.count e = 0 := by
  simp only [sendCommandCheckOK, println, List.count_append, waitForOK_trace_count cfg s e h1 h2,
    Nat.add_zero]
  rw [List.count_eq_zero]
  simpa using h0

theorem attemptsTrace_counts (cfg : Config) (cmd : List Char) (n : Nat) :
    ∀ s : BLE, commandsSent cmd (attemptsTrace cfg cmd n s) = n ∧
      (attemptsTrace cfg cmd n s).count (Event.delay 1000) = n ∧
      (attemptsTrace cfg cmd n s).count Event.flush = 0 := by
  induction n with
  | zero => intro s; simp [attemptsTrace, commandsSent]
  | succ m ih =>
    intro s
    obtain ⟨h1, h2, h3⟩ := ih (sendCommandCheckOK cfg cmd s).st
    have c1 := sendCommandCheckOK_sent cfg cmd s
    have c2 := sendCommandCheckOK_count cfg cmd s (Event.delay 1000) (by simp) (by simp) (by simp)
    have c3 := sendCommandCheckOK_count cfg cmd s Event.flush (by simp) (by simp) (by simp)
    simp only [commandsSent] at h1 c1
    simp only [attemptsTrace, commandsSent, List.count_append, h1, h2, h3, c1, c2, c3]
    refine ⟨?_, ?_, ?_⟩
    · simp; omega
    · simp; omega
    · simp

theorem factoryResetLoop_spec (cfg : Config) (j : Nat) :
    ∀ (fuel : Nat) (s : BLE), attemptOK cfg (lit "AT+FACTORYRESET") j s = true →
      (∀ i < j, attemptOK cfg (lit "AT+FACTORYRESET") i s = false) → j < fuel →
      ∃ o, factoryResetLoop cfg fuel s = some o ∧ o.val = true ∧
        o.st = afterAttempts cfg (lit "AT+FACTORYRESET") (j + 1) s ∧
        o.trace = attemptsTrace cfg (lit "AT+FACTORYRESET") (j + 1) s := by
  induction j with
  | zero =>
    intro fuel s hok _ hf
    obtain ⟨f, rfl⟩ : ∃ f, fuel = f + 1 := ⟨fuel - 1, by omega⟩
    have h0 : (sendCommandCheckOK cfg (lit "AT+FACTORYRESET") s).val = true := hok
    refine ⟨⟨(sendCommandCheckOK cfg (lit "AT+FACTORYRESET") s).val,
      (sendCommandCheckOK cfg (lit "AT+FACTORYRESET") s).st,
      (sendCommandCheckOK cfg (lit "AT+FACTORYRESET") s).trace ++ [Event.delay 1000]⟩,
      by simp only [factoryResetLoop, h0, if_true], h0, rfl, ?_⟩
    simp [attemptsTrace]
  | succ m ih =>
    intro fuel s hok hbefore hf
    obtain ⟨f, rfl⟩ : ∃ f, fuel = f + 1 := ⟨fuel - 1, by omega⟩
    have h0 : (sendCommandCheckOK cfg (lit "AT+FACTORYRESET") s).val = false :=
      hbefore 0 (Nat.succ_pos _)
    obtain ⟨o, ho, hv, hs, ht⟩ := ih f (sendCommandCheckOK cfg (lit "AT+FACTORYRESET") s).st hok
      (fun i hi => hbefore (i + 1) (Nat.succ_lt_succ hi)) (by omega)
    refine ⟨⟨o.val, o.st,
      (sendCommandCheckOK cfg (lit "AT+FACTORYRESET") s).trace ++ [Event.delay 1000] ++ o.trace⟩,
      by simp only [factoryResetLoop, h0, Bool.false_eq_true, if_false, ho, Option.map_some'],
      hv, hs, ?_⟩
    simp only [ht]
    rfl

theorem factoryResetLoop_true (cfg : Config) (fuel : Nat) :
    ∀ (s : BLE) (o : Out Bool), factoryResetLoop cfg fuel s = some o → o.val = true := by
  induction fuel with
  | zero => intro s o h; simp [factoryResetLoop] at h
  | succ f ih =>
    intro s o h
    simp only [factoryResetLoop] at h
    split_ifs at h with hv
    · simp only [Option.some.injEq] at h
      subst h
      exact hv
    · simp only [Option.map_eq_some'] at h
      obtain ⟨o1, ho1, rfl⟩ := h
      exact ih _ o1 ho1


/-- C10: when the attempt number `j + 1` of `sendCommandCheckOK("AT+FACTORYRESET")`
is the first that succeeds, `factoryReset` (given room for more than `j`
iterations) returns true; its effects are `j + 1` rounds "attempt, then
`delay(1000)`", one delay behind every attempt, failed or not, followed by one
`flush`: `j + 1` commands, `j + 1` delays of 1000 ms, one flush, at the end.
Whenever `factoryReset` returns, it returns true. -/
theorem factoryReset_spec (cfg : Config) (s : BLE) (j fuel : Nat)
    (hok : attemptOK cfg (lit "AT+FACTORYRESET") j s = true)
    (hfirst : ∀ i < j, attemptOK cfg (lit "AT+FACTORYRESET") i s = false)
    (hfuel : j < fuel) :
    (∃ o, factoryReset cfg fuel s = some o ∧ o.val = true ∧
      o.st = flush (afterAttempts cfg (lit "AT+FACTORYRESET") (j + 1) s) ∧
      o.trace = attemptsTrace cfg (lit "AT+FACTORYRESET") (j + 1) s ++ [Event.flush] ∧
      commandsSent (lit "AT+FACTORYRESET") o.trace = j + 1 ∧
      o.trace.count (Event.delay 1000) = j + 1 ∧
      o.trace.count Event.flush = 1) ∧
    (∀ (fuel1 : Nat) (s1 : BLE) (o1 : Out Bool),
      factoryReset cfg fuel1 s1 = some o1 → o1.val = true) := by
  constructor
  · obtain ⟨o, ho, hv, hs, ht⟩ := factoryResetLoop_spec cfg j fuel s hok hfirst hfuel
    obtain ⟨c1, c2, c3⟩ := attemptsTrace_counts cfg (lit "AT+FACTORYRESET") (j + 1) s
    refine ⟨⟨o.val, flush o.st, o.trace ++ [Event.flush]⟩,
      by simp only [factoryReset, ho, Option.map_some'], hv, by rw [hs], by rw [ht], ?_, ?_, ?_⟩
    · simp only [commandsSent] at c1
      simp only [commandsSent, ht, List.count_append, c1]
      simp
    · simp only [ht, List.count_append, c2]
      simp
    · simp only [ht, List.count_append, c3]
      simp
  · intro fuel1 s1 o1 h
    simp only [factoryReset, Option.map_eq_some'] at h
    obtain ⟨o, ho, rfl⟩ := h
    exact factoryResetLoop_true cfg fuel1 s1 o ho

/-- C10 (witness): the module answers `"ERROR"` to the first command and `"OK"` to
the second: two commands, two delays of 1000 ms, one flush, and true. -/
theorem factoryReset_spec_witness :
    ∃ o, factoryReset exampleConfig 5 (start exampleConfig (avail (lit "ERROR\r\nOK\r\n"))) = some o ∧
      o.val = true ∧
      o.st = flush (afterAttempts exampleConfig (lit "AT+FACTORYRESET") 2
        (start exampleConfig (avail (lit "ERROR\r\nOK\r\n")))) ∧
      o.trace = attemptsTrace exampleConfig (lit "AT+FACTORYRESET") 2
        (start exampleConfig (avail (lit "ERROR\r\nOK\r\n"))) ++ [Event.flush] ∧
      commandsSent (lit "AT+FACTORYRESET") o.trace = 2 ∧
      o.trace.count (Event.delay 1000) = 2 ∧
      o.trace.count Event.flush = 1 :=
  (factoryReset_spec exampleConfig (start exampleConfig (avail (lit "ERROR\r\nOK\r\n"))) 1 5
    (by decide) (by decide) (by decide)).1


theorem readline_verbose (cfg : Config) (timeout : Nat) (s : BLE) (b : Bool) :
    readline cfg timeout { s with _verbose := b }
      = ⟨(readline cfg timeout s).val, { (readline cfg timeout s).st with _verbose := b },
          (readline cfg timeout s).trace⟩ := rfl

theorem capturedLinesLoop_verbose (cfg : Config) (fuel : Nat) :
    ∀ (s : BLE) (b : Bool),
      capturedLinesLoop cfg fuel { s with _verbose := b } = capturedLinesLoop cfg fuel s := by
  induction fuel with
  | zero => intro s b; rfl
  | succ n ih =>
    intro s b
    simp only [capturedLinesLoop, readline_verbose]
    split_ifs
    · rfl
    · rw [ih]

theorem readline_withoutPolling (cfg : Config) (timeout : Nat) (s : BLE) :
    withoutPolling (readline cfg timeout s).trace = [] := by
  simp only [withoutPolling, List.filter_eq_nil_iff]
  intro e he
  have := readlineLoop_trace cfg timeout s.input 0 s.buffer e he
  simp [this]

theorem withoutPolling_append (a b : List Event) :
    withoutPolling (a ++ b) = withoutPolling a ++ withoutPolling b := by
  simp [withoutPolling]

theorem infoLoop_spec (cfg : Config) (fuel : Nat) :
    ∀ s : BLE, s.input.length < fuel →
      ∃ o, infoLoop cfg fuel s = some o ∧ o.st._verbose = s._verbose ∧
        withoutPolling o.trace
          = (beforeSentinel ((capturedLinesLoop cfg fuel s).map cstr)).map serialLine := by
  induction fuel with
  | zero => intro s h; omega
  | succ n ih =>
    intro s h
    have hc := readline_cstr_take cfg cfg.BLE_DEFAULT_TIMEOUT s
    have hp := readline_withoutPolling cfg cfg.BLE_DEFAULT_TIMEOUT s
    have hv : (readline cfg cfg.BLE_DEFAULT_TIMEOUT s).st._verbose = s._verbose := rfl
    simp only [infoLoop, capturedLinesLoop]
    by_cases h0 : (readline cfg cfg.BLE_DEFAULT_TIMEOUT s).val = 0
    · refine ⟨⟨(), (readline cfg cfg.BLE_DEFAULT_TIMEOUT s).st,
        (readline cfg cfg.BLE_DEFAULT_TIMEOUT s).trace⟩, by rw [if_pos h0], hv, ?_⟩
      simp only [if_pos h0, hp, List.map_nil, beforeSentinel, List.takeWhile_nil]
    · simp only [if_neg h0, List.map_cons, hc]
      by_cases h1 : cstr (readline cfg cfg.BLE_DEFAULT_TIMEOUT s).st.buffer = lit "OK" ∨
          cstr (readline cfg cfg.BLE_DEFAULT_TIMEOUT s).st.buffer = lit "ERROR"
      · refine ⟨⟨(), (readline cfg cfg.BLE_DEFAULT_TIMEOUT s).st,
          (readline cfg cfg.BLE_DEFAULT_TIMEOUT s).trace⟩, by rw [if_pos h1], hv, ?_⟩
        have hb : (cstr (readline cfg cfg.BLE_DEFAULT_TIMEOUT s).st.buffer != lit "OK" &&
            cstr (readline cfg cfg.BLE_DEFAULT_TIMEOUT s).st.buffer != lit "ERROR") = false := by
          rcases h1 with e | e <;> rw [e] <;> decide
        simp only [hp, beforeSentinel, List.takeWhile_cons, hb, Bool.false_eq_true, if_false,
          List.map_nil]
      · have hlt := readline_input_lt cfg cfg.BLE_DEFAULT_TIMEOUT s h0
        obtain ⟨o, ho, hov, hot⟩ := ih (readline cfg cfg.BLE_DEFAULT_TIMEOUT s).st (by omega)
        refine ⟨⟨(), o.st, (readline cfg cfg.BLE_DEFAULT_TIMEOUT s).trace ++
          [Event.serial (cstr (readline cfg cfg.BLE_DEFAULT_TIMEOUT s).st.buffer ++ ['\r', '\n'])]
          ++ o.trace⟩, by rw [if_neg h1, ho]; rfl, hov.trans hv, ?_⟩
        have hb : (cstr (readline cfg cfg.BLE_DEFAULT_TIMEOUT s).st.buffer != lit "OK" &&
            cstr (readline cfg cfg.BLE_DEFAULT_TIMEOUT s).st.buffer != lit "ERROR") = true := by
          simp only [not_or] at h1
          simp [h1.1, h1.2]
        simp only [withoutPolling_append, hp, hot, beforeSentinel, List.takeWhile_cons, hb,
          if_true, List.map_cons, List.nil_append]
        simp [withoutPolling, serialLine]


/-- C11 (as amended): for every input stream and every initial value of
`_verbose`, `info` prints the separator line, sends `"ATI"`, relays to `Serial`
the captured lines in order, each up to its first NUL (it is printed as a C
string), that come before the first line whose text up to its first NUL is
`"OK"` or `"ERROR"` or before the first `readline` that returns 0, prints the
separator line again, and leaves `_verbose` as it was before the call; no
relayed text is `"OK"` or `"ERROR"`. -/
theorem info_relays (cfg : Config) (s : BLE) :
    withoutPolling (info cfg s).trace
        = [serialLine (lit "----------------"), Event.tx (lit "ATI" ++ ['\r', '\n'])]
          ++ (beforeSentinel ((capturedLines cfg s).map cstr)).map serialLine
          ++ [serialLine (lit "----------------")] ∧
      (∀ l ∈ beforeSentinel ((capturedLines cfg s).map cstr), l ≠ lit "OK" ∧ l ≠ lit "ERROR") ∧
      (info cfg s).st._verbose = s._verbose := by
  obtain ⟨o, ho, hv, ht⟩ := infoLoop_spec cfg (s.input.length + 1) { s with _verbose := false }
    (Nat.lt_succ_self _)
  have ho1 : infoLoop cfg (s.input.length + 1) { s with _verbose := false } = some o := ho
  refine ⟨?_, ?_, ?_⟩
  · simp only [info, ho1, Option.getD_some, withoutPolling_append, ht,
      capturedLinesLoop_verbose, capturedLines]
    rfl
  · intro l hl
    have := List.mem_takeWhile_imp hl
    simpa using this
  · simp only [info]

/-- C11 (witness): with `_verbose` set, the reply `"Bluefruit"`, `"v1"`, `"OK"`,
`"late"` is relayed as the two lines in front of `"OK"`, and `_verbose` is still
set afterwards. -/
theorem info_relays_witness :
    withoutPolling (info exampleConfig
        ⟨avail (lit "\r\nBluefruit\r\nv1\r\nOK\r\nlate\r\n"), List.replicate 128 NUL, true⟩).trace
        = [serialLine (lit "----------------"), Event.tx (lit "ATI\r\n"),
            serialLine (lit "Bluefruit"), serialLine (lit "v1"),
            serialLine (lit "----------------")] ∧
      (info exampleConfig
        ⟨avail (lit "\r\nBluefruit\r\nv1\r\nOK\r\nlate\r\n"), List.replicate 128 NUL, true⟩).st._verbose
        = true :=
  ⟨(info_relays exampleConfig
      ⟨avail (lit "\r\nBluefruit\r\nv1\r\nOK\r\nlate\r\n"), List.replicate 128 NUL, true⟩).1.trans
      (by decide),
    (info_relays exampleConfig
      ⟨avail (lit "\r\nBluefruit\r\nv1\r\nOK\r\nlate\r\n"), List.replicate 128 NUL, true⟩).2.2⟩

/-- C11 (counterexample to the claim as stated): on the received bytes
`'a',NUL,'b','\n','O','K','\n'` the captured line in front of `"OK"` is
`'a',NUL,'b'`, but what `info` relays is the line `"a"`. -/
theorem info_exact_lines_counterexample :
    capturedLines exampleConfig (start exampleConfig (avail ['a', NUL, 'b', '\n', 'O', 'K', '\n']))
        = [['a', NUL, 'b'], ['O', 'K']] ∧
      withoutPolling (info exampleConfig
          (start exampleConfig (avail ['a', NUL, 'b', '\n', 'O', 'K', '\n']))).trace
        = [serialLine (lit "----------------"), Event.tx (lit "ATI\r\n"), serialLine ['a'],
            serialLine (lit "----------------")] ∧
      withoutPolling (info exampleConfig
          (start exampleConfig (avail ['a', NUL, 'b', '\n', 'O', 'K', '\n']))).trace
        ≠ [serialLine (lit "----------------"), Event.tx (lit "ATI" ++ ['\r', '\n'])]
          ++ (beforeSentinel (capturedLines exampleConfig
              (start exampleConfig (avail ['a', NUL, 'b', '\n', 'O', 'K', '\n'])))).map serialLine
          ++ [serialLine (lit "----------------")] := by
  decide


theorem applyWrites_append (buffer : List Char) (a b : List (Nat × Char)) :
    applyWrites buffer (a ++ b) = applyWrites (applyWrites buffer a) b := by
  simp [applyWrites]

theorem readlineInner_buffer (cfg : Config) (input : List Poll) :
    ∀ (replyidx : Nat) (buffer : List Char),
      (readlineInner cfg input replyidx buffer).buffer
        = applyWrites buffer (readlineInnerWrites cfg input replyidx) := by
  induction input with
  | nil => intro i b; rfl
  | cons p rest ih =>
    intro i b
    cases p with
    | idle => rfl
    | byte c =>
      simp only [readlineInner, readlineInnerWrites]
      split_ifs
      · exact ih _ _
      · exact ih _ _
      · rfl
      · rfl
      · rw [ih]; rfl

theorem readlineLoop_buffer (cfg : Config) (timeout : Nat) :
    ∀ (input : List Poll) (replyidx : Nat) (buffer : List Char),
      (readlineLoop cfg timeout input replyidx buffer).buffer
        = applyWrites buffer (readlineLoopWrites cfg timeout input replyidx buffer) := by
  induction timeout with
  | zero => intro inp i b; rfl
  | succ t ih =>
    intro inp i b
    simp only [readlineLoop, readlineLoopWrites]
    split_ifs
    · exact readlineInner_buffer cfg inp i b
    · simp only [applyWrites_append, ← readlineInner_buffer]
      exact ih _ _ _

theorem readline_buffer (cfg : Config) (timeout : Nat) (s : BLE) :
    (readline cfg timeout s).st.buffer = applyWrites s.buffer (readlineWrites cfg timeout s) := by
  simp only [readlineWrites, readlineStores, applyWrites_append, ← readlineLoop_buffer]
  rfl

theorem bytesOf_append (a b : List Poll) : bytesOf (a ++ b) = bytesOf a ++ bytesOf b := by
  induction a with
  | nil => rfl
  | cons p rest ih =>
    cases p with
    | idle => simpa [bytesOf] using ih
    | byte c => simp [bytesOf, ih]

theorem lineContent_append (a b : List Char) :
    lineContent (a ++ b) = lineContent a ++ lineContent b := by
  simp [lineContent]

theorem readlineInner_cr (cfg : Config) (rest : List Poll) (replyidx : Nat)
    (buffer : List Char) :
    readlineInner cfg (Poll.byte '\r' :: rest) replyidx buffer
      = readlineInner cfg rest replyidx buffer := by
  simp [readlineInner]

theorem readlineInner_byte (cfg : Config) (c : Char) (rest : List Poll) (replyidx : Nat)
    (buffer : List Char) (hr : c ≠ '\r') (hn : c ≠ '\n') :
    readlineInner cfg (Poll.byte c :: rest) replyidx buffer
      = if (replyidx + 1) % 65536 ≥ cfg.BLE_BUFSIZE - 1
        then ⟨rest, (replyidx + 1) % 65536, buffer.set replyidx c, true⟩
        else readlineInner cfg rest ((replyidx + 1) % 65536) (buffer.set replyidx c) := by
  simp only [readlineInner, if_neg hr, if_neg hn]

theorem readlineInnerWrites_cr (cfg : Config) (rest : List Poll) (replyidx : Nat) :
    readlineInnerWrites cfg (Poll.byte '\r' :: rest) replyidx
      = readlineInnerWrites cfg rest replyidx := by
  simp [readlineInnerWrites]

theorem readlineInnerWrites_newline (cfg : Config) (rest : List Poll) (replyidx : Nat) :
    readlineInnerWrites cfg (Poll.byte '\n' :: rest) replyidx
      = if replyidx = 0 then readlineInnerWrites cfg rest replyidx else [] := by
  simp [readlineInnerWrites]

theorem readlineInnerWrites_byte (cfg : Config) (c : Char) (rest : List Poll) (replyidx : Nat)
    (hr : c ≠ '\r') (hn : c ≠ '\n') :
    readlineInnerWrites cfg (Poll.byte c :: rest) replyidx
      = if (replyidx + 1) % 65536 ≥ cfg.BLE_BUFSIZE - 1 then [(replyidx, c)]
        else (replyidx, c) :: readlineInnerWrites cfg rest ((replyidx + 1) % 65536) := by
  simp only [readlineInnerWrites, if_neg hr, if_neg hn]

theorem lineContent_cr (l : List Char) : lineContent ('\r' :: l) = lineContent l := by
  simp [lineContent]

theorem lineContent_newline (l : List Char) : lineContent ('\n' :: l) = lineContent l := by
  simp [lineContent]

theorem lineContent_byte (c : Char) (l : List Char) (hr : c ≠ '\r') (hn : c ≠ '\n') :
    lineContent (c :: l) = c :: lineContent l := by
  simp [lineContent, hr, hn]

theorem readlineInner_count (cfg : Config) (hB : cfg.BLE_BUFSIZE ≤ 65536) (input : List Poll) :
    ∀ (replyidx : Nat) (buffer : List Char), replyidx < 65535 →
      ∃ consumed, input = consumed ++ (readlineInner cfg input replyidx buffer).rest ∧
        (readlineInnerWrites cfg input replyidx).map Prod.snd = lineContent (bytesOf consumed) ∧
        (readlineInner cfg input replyidx buffer).replyidx
          = replyidx + (readlineInnerWrites cfg input replyidx).length ∧
        ((readlineInner cfg input replyidx buffer).done = false →
          (readlineInner cfg input replyidx buffer).replyidx < 65535) := by
  induction input with
  | nil => intro i b hi; exact ⟨[], rfl, rfl, rfl, fun _ => hi⟩
  | cons p rest ih =>
    intro i b hi
    cases p with
    | idle => exact ⟨[Poll.idle], rfl, rfl, rfl, fun _ => hi⟩
    | byte c =>
      have hmod : (i + 1) % 65536 = i + 1 := Nat.mod_eq_of_lt (by omega)
      by_cases hr : c = '\r'
      · subst hr
        obtain ⟨cons, h1, h2, h3, h4⟩ := ih i b hi
        rw [readlineInner_cr, readlineInnerWrites_cr]
        refine ⟨Poll.byte '\r' :: cons, by rw [List.cons_append, ← h1], ?_, h3, h4⟩
        rw [h2, bytesOf, lineContent_cr]
      · by_cases hn : c = '\n'
        · subst hn
          rw [readlineInner_newline, readlineInnerWrites_newline]
          by_cases h0 : i = 0
          · obtain ⟨cons, h1, h2, h3, h4⟩ := ih i b hi
            rw [if_pos h0, if_pos h0]
            refine ⟨Poll.byte '\n' :: cons, by rw [List.cons_append, ← h1], ?_, h3, h4⟩
            rw [h2, bytesOf, lineContent_newline]
          · rw [if_neg h0, if_neg h0]
            refine ⟨[Poll.byte '\n'], rfl, ?_, rfl, fun h => by cases h⟩
            simp [bytesOf, lineContent]
        · rw [readlineInner_byte cfg c rest i b hr hn, readlineInnerWrites_byte cfg c rest i hr hn,
            hmod]
          by_cases hfull : i + 1 ≥ cfg.BLE_BUFSIZE - 1
          · rw [if_pos hfull, if_pos hfull]
            refine ⟨[Poll.byte c], rfl, ?_, rfl, fun h => by cases h⟩
            simp [bytesOf, lineContent, hr, hn]
          · obtain ⟨cons, h1, h2, h3, h4⟩ := ih (i + 1) (b.set i c) (by omega)
            rw [if_neg hfull, if_neg hfull]
            refine ⟨Poll.byte c :: cons, by rw [List.cons_append, ← h1], ?_, ?_, h4⟩
            · rw [List.map_cons, h2, bytesOf, lineContent_byte c _ hr hn]
            · rw [h3, List.length_cons]; omega


theorem readlineLoop_count (cfg : Config) (hB : cfg.BLE_BUFSIZE ≤ 65536) (timeout : Nat) :
    ∀ (input : List Poll) (replyidx : Nat) (buffer : List Char), replyidx < 65535 →
      ∃ consumed, input = consumed ++ (readlineLoop cfg timeout input replyidx buffer).rest ∧
        (readlineLoopWrites cfg timeout input replyidx buffer).map Prod.snd
          = lineContent (bytesOf consumed) ∧
        (readlineLoop cfg timeout input replyidx buffer).replyidx
          = replyidx + (readlineLoopWrites cfg timeout input replyidx buffer).length := by
  induction timeout with
  | zero => intro inp i b _; exact ⟨[], rfl, rfl, rfl⟩
  | succ t ih =>
    intro inp i b hi
    obtain ⟨c1, h1, h2, h3, h4⟩ := readlineInner_count cfg hB inp i b hi
    simp only [readlineLoop, readlineLoopWrites]
    by_cases hd : (readlineInner cfg inp i b).done = true ∨ t = 0
    · rw [if_pos hd, if_pos hd]
      exact ⟨c1, h1, h2, h3⟩
    · rw [if_neg hd, if_neg hd]
      have hnd : (readlineInner cfg inp i b).done = false := by
        cases hx : (readlineInner cfg inp i b).done
        · rfl
        · exact absurd (Or.inl hx) hd
      obtain ⟨c2, g1, g2, g3⟩ := ih (readlineInner cfg inp i b).rest
        (readlineInner cfg inp i b).replyidx (readlineInner cfg inp i b).buffer (h4 hnd)
      refine ⟨c1 ++ c2, ?_, ?_, ?_⟩
      · rw [List.append_assoc, ← g1, ← h1]
      · rw [List.map_append, h2, g2, bytesOf_append, lineContent_append]
      · simp only
        rw [g3, h3, List.length_append]; omega

theorem take_set_self (l : List Char) (a : Char) :
    ∀ n : Nat, (l.set n a).take n = l.take n := by
  induction l with
  | nil => intro n; simp
  | cons b bs ih =>
    intro n
    cases n with
    | zero => rfl
    | succ k => simp only [List.set_cons_succ, List.take_succ_cons, ih]

theorem take_succ_set (l : List Char) (a : Char) :
    ∀ n : Nat, n < l.length → (l.set n a).take (n + 1) = l.take n ++ [a] := by
  induction l with
  | nil => intro n h; simp at h
  | cons b bs ih =>
    intro n h
    cases n with
    | zero => rfl
    | succ k =>
      simp only [List.length_cons, Nat.add_lt_add_iff_right] at h
      simp only [List.set_cons_succ, List.take_succ_cons, ih k h, List.cons_append]

theorem readlineInner_stored (cfg : Config) (hB : cfg.BLE_BUFSIZE ≤ 65536) (input : List Poll) :
    ∀ (replyidx : Nat) (buffer : List Char), replyidx < cfg.BLE_BUFSIZE - 1 →
      cfg.BLE_BUFSIZE ≤ buffer.length →
      ∃ consumed, input = consumed ++ (readlineInner cfg input replyidx buffer).rest ∧
        (readlineInner cfg input replyidx buffer).buffer.take
            (readlineInner cfg input replyidx buffer).replyidx
          = buffer.take replyidx ++ lineContent (bytesOf consumed) ∧
        (readlineInner cfg input replyidx buffer).buffer.length = buffer.length ∧
        ((readlineInner cfg input replyidx buffer).done = false →
          (readlineInner cfg input replyidx buffer).replyidx < cfg.BLE_BUFSIZE - 1) := by
  induction input with
  | nil =>
    intro i b hi _
    exact ⟨[], rfl, by simp [readlineInner, bytesOf, lineContent], rfl, fun _ => hi⟩
  | cons p rest ih =>
    intro i b hi hb
    cases p with
    | idle =>
      exact ⟨[Poll.idle], rfl, by simp [readlineInner, bytesOf, lineContent], rfl, fun _ => hi⟩
    | byte c =>
      have hmod : (i + 1) % 65536 = i + 1 := Nat.mod_eq_of_lt (by omega)
      by_cases hr : c = '\r'
      · subst hr
        obtain ⟨cons, h1, h2, h3, h4⟩ := ih i b hi hb
        rw [readlineInner_cr]
        refine ⟨Poll.byte '\r' :: cons, by rw [List.cons_append, ← h1], ?_, h3, h4⟩
        rw [h2, bytesOf, lineContent_cr]
      · by_cases hn : c = '\n'
        · subst hn
          rw [readlineInner_newline]
          by_cases h0 : i = 0
          · obtain ⟨cons, h1, h2, h3, h4⟩ := ih i b hi hb
            rw [if_pos h0]
            refine ⟨Poll.byte '\n' :: cons, by rw [List.cons_append, ← h1], ?_, h3, h4⟩
            rw [h2, bytesOf, lineContent_newline]
          · rw [if_neg h0]
            refine ⟨[Poll.byte '\n'], rfl, ?_, rfl, fun h => by cases h⟩
            simp [bytesOf, lineContent]
        · rw [readlineInner_byte cfg c rest i b hr hn, hmod]
          have hil : i < b.length := by omega
          by_cases hfull : i + 1 ≥ cfg.BLE_BUFSIZE - 1
          · rw [if_pos hfull]
            refine ⟨[Poll.byte c], rfl, ?_, by simp, fun h => by cases h⟩
            simp only [bytesOf]
            rw [lineContent_byte c [] hr hn, take_succ_set b c i hil]
            rfl
          · obtain ⟨cons, h1, h2, h3, h4⟩ := ih (i + 1) (b.set i c) (by omega)
              (by rw [List.length_set]; exact hb)
            rw [if_neg hfull]
            refine ⟨Poll.byte c :: cons, by rw [List.cons_append, ← h1], ?_, ?_, h4⟩
            · rw [h2, take_succ_set b c i hil, bytesOf, lineContent_byte c _ hr hn]
              simp
            · rw [h3, List.length_set]

theorem readlineLoop_stored (cfg : Config) (hB : cfg.BLE_BUFSIZE ≤ 65536) (timeout : Nat) :
    ∀ (input : List Poll) (replyidx : Nat) (buffer : List Char),
      replyidx < cfg.BLE_BUFSIZE - 1 → cfg.BLE_BUFSIZE ≤ buffer.length →
      ∃ consumed, input = consumed ++ (readlineLoop cfg timeout input replyidx buffer).rest ∧
        (readlineLoop cfg timeout input replyidx buffer).buffer.take
            (readlineLoop cfg timeout input replyidx buffer).replyidx
          = buffer.take replyidx ++ lineContent (bytesOf consumed) := by
  induction timeout with
  | zero =>
    intro inp i b _ _
    exact ⟨[], rfl, by simp [readlineLoop, bytesOf, lineContent]⟩
  | succ t ih =>
    intro inp i b hi hb
    obtain ⟨c1, h1, h2, h3, h4⟩ := readlineInner_stored cfg hB inp i b hi hb
    simp only [readlineLoop]
    by_cases hd : (readlineInner cfg inp i b).done = true ∨ t = 0
    · rw [if_pos hd]
      exact ⟨c1, h1, h2⟩
    · rw [if_neg hd]
      have hnd : (readlineInner cfg inp i b).done = false := by
        cases hx : (readlineInner cfg inp i b).done
        · rfl
        · exact absurd (Or.inl hx) hd
      obtain ⟨c2, g1, g2⟩ := ih (readlineInner cfg inp i b).rest
        (readlineInner cfg inp i b).replyidx (readlineInner cfg inp i b).buffer (h4 hnd)
        (by rw [h3]; exact hb)
      refine ⟨c1 ++ c2, ?_, ?_⟩
      · rw [List.append_assoc, ← g1, ← h1]
      · simp only
        rw [g2, h2, bytesOf_append, lineContent_append, List.append_assoc]

theorem readline_stored (cfg : Config) (hB2 : 2 ≤ cfg.BLE_BUFSIZE) (hB : cfg.BLE_BUFSIZE ≤ 65536)
    (timeout : Nat) (s : BLE) (hbuf : s.buffer.length = cfg.BLE_BUFSIZE) :
    ∃ consumed, s.input = consumed ++ (readline cfg timeout s).st.input ∧
      (readline cfg timeout s).st.buffer.take (readline cfg timeout s).val
        = lineContent (bytesOf consumed) := by
  obtain ⟨consumed, h1, h2⟩ := readlineLoop_stored cfg hB timeout s.input 0 s.buffer (by omega)
    (by omega)
  refine ⟨consumed, h1, ?_⟩
  simp only [readline, take_set_self]
  rw [h2]
  simp

/-- C12: for every input stream and timeout, the value that `readline` returns is
the number of bytes it stored in the buffer: the buffer on return is the old one
after the writes `buffer[replyidx] = c` of the call and the final NUL, its first
`count` bytes are the stored bytes, and these are, in order, the bytes other
than `'\r'` and `'\n'` among those the call consumed; so it returns 0 exactly
when every byte it consumed was `'\r'` or `'\n'` (or it consumed none). -/
theorem readline_count (cfg : Config) (hB : cfg.BLE_BUFSIZE ≤ 65536) (timeout : Nat) (s : BLE) :
    ∃ consumed, s.input = consumed ++ (readline cfg timeout s).st.input ∧
      (readlineStores cfg timeout s).map Prod.snd = lineContent (bytesOf consumed) ∧
      (readline cfg timeout s).st.buffer
        = applyWrites s.buffer
            (readlineStores cfg timeout s ++ [((readline cfg timeout s).val, NUL)]) ∧
      (2 ≤ cfg.BLE_BUFSIZE → s.buffer.length = cfg.BLE_BUFSIZE →
        (readline cfg timeout s).st.buffer.take (readline cfg timeout s).val
          = lineContent (bytesOf consumed)) ∧
      (readline cfg timeout s).val = (readlineStores cfg timeout s).length ∧
      (readline cfg timeout s).val = (lineContent (bytesOf consumed)).length ∧
      ((readline cfg timeout s).val = 0 ↔ ∀ c ∈ bytesOf consumed, c = '\r' ∨ c = '\n') := by
  obtain ⟨consumed, h1, h2, h3⟩ := readlineLoop_count cfg hB timeout s.input 0 s.buffer
    (by decide)
  have hv : (readline cfg timeout s).val = (readlineStores cfg timeout s).length := by
    simp only [readline, readlineStores]
    rw [h3]; omega
  have hl : (readlineStores cfg timeout s).length = (lineContent (bytesOf consumed)).length := by
    have := congrArg List.length h2
    simpa [readlineStores] using this
  have htake : 2 ≤ cfg.BLE_BUFSIZE → s.buffer.length = cfg.BLE_BUFSIZE →
      (readline cfg timeout s).st.buffer.take (readline cfg timeout s).val
        = lineContent (bytesOf consumed) := by
    intro hB2 hbuf
    obtain ⟨consumed1, g1, g2⟩ := readline_stored cfg hB2 hB timeout s hbuf
    have e : consumed = consumed1 := by
      have h1a : s.input = consumed ++ (readline cfg timeout s).st.input := h1
      rw [g1] at h1a
      exact (List.append_cancel_right h1a).symm
    rw [e]
    exact g2
  refine ⟨consumed, h1, h2, readline_buffer cfg timeout s, htake, hv, hv.trans hl, ?_⟩
  rw [hv.trans hl, List.length_eq_zero]
  simp only [lineContent, List.filter_eq_nil_iff, Bool.and_eq_true, bne_iff_ne, ne_eq, not_and,
    Decidable.not_not]
  constructor
  · intro h c hc
    by_cases hr : c = '\r'
    · exact Or.inl hr
    · exact Or.inr (h c hc hr)
  · intro h c hc hr
    rcases h c hc with e | e
    · exact absurd e hr
    · exact e

/-- C12 (witness): of `"\r\nab\r\ncd\n"` the call consumes `"\r\nab\r\n"`, stores
`a` and `b` at the front of the buffer and returns 2; of `"\r\n\r"` it consumes
all and returns 0. -/
theorem readline_count_witness :
    (∃ consumed, (start exampleConfig (avail (lit "\r\nab\r\ncd\n"))).input
        = consumed ++ (readline exampleConfig 250
            (start exampleConfig (avail (lit "\r\nab\r\ncd\n")))).st.input ∧
      (readlineStores exampleConfig 250 (start exampleConfig (avail (lit "\r\nab\r\ncd\n")))).map
          Prod.snd = lineContent (bytesOf consumed) ∧
      (readline exampleConfig 250 (start exampleConfig (avail (lit "\r\nab\r\ncd\n")))).st.buffer
        = applyWrites (start exampleConfig (avail (lit "\r\nab\r\ncd\n"))).buffer
            (readlineStores exampleConfig 250 (start exampleConfig (avail (lit "\r\nab\r\ncd\n")))
              ++ [((readline exampleConfig 250
                    (start exampleConfig (avail (lit "\r\nab\r\ncd\n")))).val, NUL)]) ∧
      (2 ≤ exampleConfig.BLE_BUFSIZE →
        (start exampleConfig (avail (lit "\r\nab\r\ncd\n"))).buffer.length
          = exampleConfig.BLE_BUFSIZE →
        (readline exampleConfig 250
            (start exampleConfig (avail (lit "\r\nab\r\ncd\n")))).st.buffer.take
          (readline exampleConfig 250 (start exampleConfig (avail (lit "\r\nab\r\ncd\n")))).val
          = lineContent (bytesOf consumed)) ∧
      (readline exampleConfig 250 (start exampleConfig (avail (lit "\r\nab\r\ncd\n")))).val
        = (readlineStores exampleConfig 250
            (start exampleConfig (avail (lit "\r\nab\r\ncd\n")))).length ∧
      (readline exampleConfig 250 (start exampleConfig (avail (lit "\r\nab\r\ncd\n")))).val
        = (lineContent (bytesOf consumed)).length ∧
      ((readline exampleConfig 250 (start exampleConfig (avail (lit "\r\nab\r\ncd\n")))).val = 0 ↔
        ∀ c ∈ bytesOf consumed, c = '\r' ∨ c = '\n')) ∧
    (readline exampleConfig 250 (start exampleConfig (avail (lit "\r\nab\r\ncd\n")))).val = 2 ∧
    (readline exampleConfig 250 (start exampleConfig (avail (lit "\r\nab\r\ncd\n")))).st.buffer.take 2
      = ['a', 'b'] ∧
    readlineStores exampleConfig 250 (start exampleConfig (avail (lit "\r\nab\r\ncd\n")))
      = [(0, 'a'), (1, 'b')] ∧
    (readline exampleConfig 250 (start exampleConfig (avail (lit "\r\n\r")))).val = 0 :=
  ⟨readline_count exampleConfig (by decide) 250
      (start exampleConfig (avail (lit "\r\nab\r\ncd\n"))), by decide, by decide, by decide,
    by decide⟩

theorem readlineInner_bound (cfg : Config) (hB : cfg.BLE_BUFSIZE ≤ 65536) (input : List Poll) :
    ∀ (replyidx : Nat) (buffer : List Char), replyidx < cfg.BLE_BUFSIZE - 1 →
      (∀ w ∈ readlineInnerWrites cfg input replyidx, w.1 < cfg.BLE_BUFSIZE - 1) ∧
        (readlineInner cfg input replyidx buffer).replyidx ≤ cfg.BLE_BUFSIZE - 1 ∧
        ((readlineInner cfg input replyidx buffer).done = false →
          (readlineInner cfg input replyidx buffer).replyidx < cfg.BLE_BUFSIZE - 1) := by
  induction input with
  | nil =>
    intro i b hi
    exact ⟨fun w hw => by simp [readlineInnerWrites] at hw, Nat.le_of_lt hi, fun _ => hi⟩
  | cons p rest ih =>
    intro i b hi
    cases p with
    | idle =>
      exact ⟨fun w hw => by simp [readlineInnerWrites] at hw, Nat.le_of_lt hi, fun _ => hi⟩
    | byte c =>
      have hmod : (i + 1) % 65536 = i + 1 := Nat.mod_eq_of_lt (by omega)
      by_cases hr : c = '\r'
      · subst hr
        rw [readlineInner_cr, readlineInnerWrites_cr]
        exact ih i b hi
      · by_cases hn : c = '\n'
        · subst hn
          rw [readlineInner_newline, readlineInnerWrites_newline]
          by_cases h0 : i = 0
          · rw [if_pos h0, if_pos h0]
            exact ih i b hi
          · rw [if_neg h0, if_neg h0]
            exact ⟨fun w hw => by simp at hw, Nat.le_of_lt hi, fun h => by cases h⟩
        · rw [readlineInner_byte cfg c rest i b hr hn, readlineInnerWrites_byte cfg c rest i hr hn,
            hmod]
          by_cases hfull : i + 1 ≥ cfg.BLE_BUFSIZE - 1
          · rw [if_pos hfull, if_pos hfull]
            refine ⟨fun w hw => ?_, by simp only; omega, fun h => by cases h⟩
            rw [List.mem_singleton.mp hw]
            exact hi
          · rw [if_neg hfull, if_neg hfull]
            obtain ⟨g1, g2, g3⟩ := ih (i + 1) (b.set i c) (by omega)
            refine ⟨fun w hw => ?_, g2, g3⟩
            rcases List.mem_cons.mp hw with e | e
            · rw [e]; exact hi
            · exact g1 w e

theorem readlineLoop_bound (cfg : Config) (hB : cfg.BLE_BUFSIZE ≤ 65536) (timeout : Nat) :
    ∀ (input : List Poll) (replyidx : Nat) (buffer : List Char),
      replyidx < cfg.BLE_BUFSIZE - 1 →
      (∀ w ∈ readlineLoopWrites cfg timeout input replyidx buffer, w.1 < cfg.BLE_BUFSIZE - 1) ∧
        (readlineLoop cfg timeout input replyidx buffer).replyidx ≤ cfg.BLE_BUFSIZE - 1 := by
  induction timeout with
  | zero =>
    intro inp i b hi
    exact ⟨fun w hw => by simp [readlineLoopWrites] at hw, Nat.le_of_lt hi⟩
  | succ t ih =>
    intro inp i b hi
    obtain ⟨h1, h2, h3⟩ := readlineInner_bound cfg hB inp i b hi
    simp only [readlineLoop, readlineLoopWrites]
    by_cases hd : (readlineInner cfg inp i b).done = true ∨ t = 0
    · rw [if_pos hd, if_pos hd]
      exact ⟨h1, h2⟩
    · rw [if_neg hd, if_neg hd]
      have hnd : (readlineInner cfg inp i b).done = false := by
        cases hx : (readlineInner cfg inp i b).done
        · rfl
        · exact absurd (Or.inl hx) hd
      obtain ⟨g1, g2⟩ := ih (readlineInner cfg inp i b).rest
        (readlineInner cfg inp i b).replyidx (readlineInner cfg inp i b).buffer (h3 hnd)
      refine ⟨fun w hw => ?_, g2⟩
      rcases List.mem_append.mp hw with e | e
      · exact h1 w e
      · exact g1 w e

theorem applyWrites_length (writes : List (Nat × Char)) :
    ∀ buffer : List Char, (applyWrites buffer writes).length = buffer.length := by
  induction writes with
  | nil => intro b; rfl
  | cons w ws ih =>
    intro b
    have := ih (b.set w.1 w.2)
    simp only [applyWrites, List.foldl_cons] at this ⊢
    rw [this, List.length_set]

theorem cstr_eq_take (buf : List Char) :
    ∀ n : Nat, (∀ c ∈ buf.take n, c ≠ NUL) → buf[n]? = some NUL → cstr buf = buf.take n := by
  induction buf with
  | nil => intro n _ h; simp at h
  | cons b bs ih =>
    intro n h1 h2
    cases n with
    | zero =>
      simp only [List.getElem?_cons_zero, Option.some.injEq] at h2
      simp [cstr, h2]
    | succ k =>
      have hb : b ≠ NUL := h1 b (by simp)
      have := ih k (fun c hc => h1 c (by simp [hc])) (by simpa using h2)
      simp only [cstr] at this
      simp [cstr, List.takeWhile_cons, hb, this]

/-- C13: for every input stream and timeout, every write that `readline` makes
to `buffer` (the stored bytes and the final NUL) is at an index below
`BLE_BUFSIZE`, the returned count is at most `BLE_BUFSIZE-1`, and on return
`buffer[count]` is NUL; when none of the `count` stored bytes is NUL, the buffer
holds a NUL-terminated string of length `count`. -/
theorem readline_buffer_safe (cfg : Config) (hB2 : 2 ≤ cfg.BLE_BUFSIZE)
    (hB : cfg.BLE_BUFSIZE ≤ 65536) (timeout : Nat) (s : BLE)
    (hbuf : s.buffer.length = cfg.BLE_BUFSIZE) :
    (∀ w ∈ readlineWrites cfg timeout s, w.1 < cfg.BLE_BUFSIZE) ∧
      (readline cfg timeout s).st.buffer = applyWrites s.buffer (readlineWrites cfg timeout s) ∧
      (readline cfg timeout s).st.buffer.length = cfg.BLE_BUFSIZE ∧
      (readline cfg timeout s).val ≤ cfg.BLE_BUFSIZE - 1 ∧
      (readline cfg timeout s).st.buffer[(readline cfg timeout s).val]? = some NUL ∧
      ((∀ c ∈ (readline cfg timeout s).st.buffer.take (readline cfg timeout s).val, c ≠ NUL) →
        cstr (readline cfg timeout s).st.buffer
            = (readline cfg timeout s).st.buffer.take (readline cfg timeout s).val ∧
          (cstr (readline cfg timeout s).st.buffer).length = (readline cfg timeout s).val) := by
  obtain ⟨h1, h2⟩ := readlineLoop_bound cfg hB timeout s.input 0 s.buffer (by omega)
  have hv : (readline cfg timeout s).val ≤ cfg.BLE_BUFSIZE - 1 := h2
  have hlen : (readline cfg timeout s).st.buffer.length = cfg.BLE_BUFSIZE := by
    rw [readline_buffer, applyWrites_length, hbuf]
  have hnul : (readline cfg timeout s).st.buffer[(readline cfg timeout s).val]? = some NUL := by
    have hl : (readlineLoop cfg timeout s.input 0 s.buffer).replyidx
        < (readlineLoop cfg timeout s.input 0 s.buffer).buffer.length := by
      rw [readlineLoop_buffer, applyWrites_length, hbuf]
      omega
    simp only [readline]
    exact List.getElem?_set_self hl
  refine ⟨fun w hw => ?_, readline_buffer cfg timeout s, hlen, hv, hnul, fun hno => ?_⟩
  · simp only [readlineWrites, List.mem_append, List.mem_singleton] at hw
    rcases hw with e | e
    · have := h1 w e
      omega
    · rw [e]
      simp only
      omega
  · have e := cstr_eq_take _ _ hno hnul
    refine ⟨e, ?_⟩
    rw [e, List.length_take, hlen]
    omega

/-- C13 (witness): with a buffer of 4 bytes and the over-long line `"abcdef\n"`,
the writes are at the indices 0, 1, 2 and 3, the count is 3 and `buffer[3]` is
NUL. -/
theorem readline_buffer_safe_witness :
    readlineWrites ⟨4, 250⟩ 250 (start ⟨4, 250⟩ (avail (lit "abcdef\n")))
        = [(0, 'a'), (1, 'b'), (2, 'c'), (3, NUL)] ∧
      (readline ⟨4, 250⟩ 250 (start ⟨4, 250⟩ (avail (lit "abcdef\n")))).val ≤ 4 - 1 ∧
      (readline ⟨4, 250⟩ 250 (start ⟨4, 250⟩ (avail (lit "abcdef\n")))).st.buffer[
        (readline ⟨4, 250⟩ 250 (start ⟨4, 250⟩ (avail (lit "abcdef\n")))).val]? = some NUL :=
  ⟨by decide,
    (readline_buffer_safe ⟨4, 250⟩ (by decide) (by decide) 250
      (start ⟨4, 250⟩ (avail (lit "abcdef\n"))) (by decide)).2.2.2.1,
    (readline_buffer_safe ⟨4, 250⟩ (by decide) (by decide) 250
      (start ⟨4, 250⟩ (avail (lit "abcdef\n"))) (by decide)).2.2.2.2.1⟩


theorem resetLoop_count (cfg : Config) (n : Nat) (e : Event)
    (h0 : e ≠ Event.tx (lit "ATZ" ++ ['\r', '\n'])) (h1 : e ≠ Event.delay 1)
    (h2 : e ≠ Event.serial (lit "\n<- ")) :
    ∀ (isOK : Bool) (s : BLE), (resetLoop cfg n isOK s).trace.count e = 0 := by
  induction n with
  | zero => intro b s; rfl
  | succ m ih =>
    intro b s
    have hc := sendCommandCheckOK_count cfg (lit "ATZ") s e h0 h1 h2
    simp only [resetLoop]
    split_ifs
    · exact hc
    · simp only [List.count_append, hc, ih, Nat.add_zero]

theorem resetLoop_head (cfg : Config) (n : Nat) (isOK : Bool) (s : BLE) :
    (resetLoop cfg (n + 1) isOK s).trace.head? = some (Event.tx (lit "ATZ" ++ ['\r', '\n'])) := by
  simp only [resetLoop]
  split_ifs
  · rfl
  · rfl

/-- C14: `reset` writes the `"+++"` line once when the first five `"ATZ"`
attempts all fail, after the fifth and in front of the sixth `"ATZ"`, with a
delay of 50 ms right before and right after it, and never when one of the first
five attempts succeeds; when it returns true its last effects are one delay of
1000 ms and then one flush, and when all ten attempts fail it returns false
without any delay of 1000 ms and without a flush. -/
theorem reset_escape (cfg : Config) (s : BLE) :
    ((∀ k < 5, attemptOK cfg (lit "ATZ") k s = false) →
      ∃ before after, (reset cfg s).trace
          = before ++ [Event.delay 50, Event.tx (lit "+++" ++ ['\r', '\n']), Event.delay 50]
            ++ after ∧
        commandsSent (lit "ATZ") before = 5 ∧
        after.head? = some (Event.tx (lit "ATZ" ++ ['\r', '\n'])) ∧
        commandsSent (lit "+++") (reset cfg s).trace = 1 ∧
        (reset cfg s).trace.count (Event.delay 50) = 2) ∧
    ((∃ k < 5, attemptOK cfg (lit "ATZ") k s = true) →
      commandsSent (lit "+++") (reset cfg s).trace = 0 ∧
        (reset cfg s).trace.count (Event.delay 50) = 0) ∧
    ((reset cfg s).val = true →
      ∃ pre, (reset cfg s).trace = pre ++ [Event.delay 1000, Event.flush] ∧
        pre.count (Event.delay 1000) = 0 ∧ pre.count Event.flush = 0) ∧
    ((∀ k < 10, attemptOK cfg (lit "ATZ") k s = false) →
      (reset cfg s).val = false ∧
        (reset cfg s).trace.count (Event.delay 1000) = 0 ∧
        (reset cfg s).trace.count Event.flush = 0) := by
  have cP := fun (b : Bool) (t : BLE) =>
    resetLoop_count cfg 5 (Event.tx (lit "+++" ++ ['\r', '\n'])) (by decide) (by decide)
      (by decide) b t
  have c50 := fun (b : Bool) (t : BLE) =>
    resetLoop_count cfg 5 (Event.delay 50) (by decide) (by decide) (by decide) b t
  have c1000 := fun (b : Bool) (t : BLE) =>
    resetLoop_count cfg 5 (Event.delay 1000) (by decide) (by decide) (by decide) b t
  have cF := fun (b : Bool) (t : BLE) =>
    resetLoop_count cfg 5 Event.flush (by decide) (by decide) (by decide) b t
  have hfalse : (reset cfg s).val = false →
      (reset cfg s).trace.count (Event.delay 1000) = 0 ∧
        (reset cfg s).trace.count Event.flush = 0 := by
    intro hv
    cases h1 : (resetLoop cfg 5 false s).val
    · cases h2 : (resetLoop cfg 5 false (resetLoop cfg 5 false s).st).val
      · simp only [reset, h1, h2, Bool.not_false, if_true, List.count_append, c1000, cF, println]
        decide
      · simp [reset, h1, h2] at hv
    · simp [reset, h1] at hv
  refine ⟨fun hfail => ?_, fun hsucc => ?_, fun hv => ?_, fun hall => ?_⟩
  · obtain ⟨a1, a2, a3⟩ := resetLoop_fail cfg 5 false s (by decide) hfail
    refine ⟨(resetLoop cfg 5 false s).trace,
      (resetLoop cfg 5 false (resetLoop cfg 5 false s).st).trace
        ++ (if (resetLoop cfg 5 false (resetLoop cfg 5 false s).st).val = true
            then [Event.delay 1000, Event.flush] else []), ?_, a3, ?_, ?_, ?_⟩
    · simp only [reset, a1, Bool.not_false, if_true, println]
      cases hx : (resetLoop cfg 5 false (resetLoop cfg 5 false s).st).val
      · simp
      · simp
    · rw [List.head?_append_of_ne_nil]
      · exact resetLoop_head cfg 4 false _
      · intro e
        have := resetLoop_head cfg 4 false (resetLoop cfg 5 false s).st
        rw [e] at this
        cases this
    · simp only [reset, a1, Bool.not_false, if_true, println, commandsSent]
      cases hx : (resetLoop cfg 5 false (resetLoop cfg 5 false s).st).val
      · simp only [Bool.not_false, if_true, List.count_append, cP]
        decide
      · simp only [Bool.not_true, Bool.false_eq_true, if_false, List.count_append, cP]
        decide
    · simp only [reset, a1, Bool.not_false, if_true, println]
      cases hx : (resetLoop cfg 5 false (resetLoop cfg 5 false s).st).val
      · simp only [Bool.not_false, if_true, List.count_append, c50]
        decide
      · simp only [Bool.not_true, Bool.false_eq_true, if_false, List.count_append, c50]
        decide
  · obtain ⟨k, hk, hok⟩ := hsucc
    have hl1 : (resetLoop cfg 5 false s).val = true := by
      rcases first_success (fun i => attemptOK cfg (lit "ATZ") i s) 5 with h | ⟨j, hj, h1, h2⟩
      · rw [h k hk] at hok; cases hok
      · exact (resetLoop_success cfg 5 false s j hj h1 h2).1
    simp only [reset, hl1, Bool.not_true, Bool.false_eq_true, if_false, commandsSent,
      List.count_append, cP, c50]
    decide
  · cases h1 : (resetLoop cfg 5 false s).val
    · cases h2 : (resetLoop cfg 5 false (resetLoop cfg 5 false s).st).val
      · simp [reset, h1, h2] at hv
      · refine ⟨(resetLoop cfg 5 false s).trace ++ [Event.delay 50] ++ println (lit "+++")
          ++ [Event.delay 50] ++ (resetLoop cfg 5 false (resetLoop cfg 5 false s).st).trace,
          ?_, ?_, ?_⟩
        · simp only [reset, h1, h2, Bool.not_false, Bool.not_true, if_true, Bool.false_eq_true,
            if_false]
        · simp only [List.count_append, c1000, println]
          decide
        · simp only [List.count_append, cF, println]
          decide
    · refine ⟨(resetLoop cfg 5 false s).trace, ?_, c1000 _ _, cF _ _⟩
      simp only [reset, h1, Bool.not_true, Bool.false_eq_true, if_false]
  · have hv : (reset cfg s).val = false := by
      rcases reset_cases cfg s with ⟨_, hv, _⟩ | ⟨j, hj, h1, _⟩
      · exact hv
      · rw [hall j hj] at h1; cases h1
    exact ⟨hv, hfalse hv⟩


/-- C14 (witness): the module answers `"ERROR"` five times and then `"OK"`: the
`"+++"` line is written once, between its two delays of 50 ms, after five
`"ATZ"` and in front of the sixth, and `reset` ends with the delay of 1000 ms
and the flush. -/
theorem reset_escape_witness :
    (∃ before after,
      (reset exampleConfig (start exampleConfig
          (avail (lit "ERROR\nERROR\nERROR\nERROR\nERROR\nOK\n")))).trace
          = before ++ [Event.delay 50, Event.tx (lit "+++" ++ ['\r', '\n']), Event.delay 50]
            ++ after ∧
        commandsSent (lit "ATZ") before = 5 ∧
        after.head? = some (Event.tx (lit "ATZ" ++ ['\r', '\n'])) ∧
        commandsSent (lit "+++") (reset exampleConfig (start exampleConfig
          (avail (lit "ERROR\nERROR\nERROR\nERROR\nERROR\nOK\n")))).trace = 1 ∧
        (reset exampleConfig (start exampleConfig
          (avail (lit "ERROR\nERROR\nERROR\nERROR\nERROR\nOK\n")))).trace.count (Event.delay 50)
          = 2) ∧
    (∃ pre,
      (reset exampleConfig (start exampleConfig
          (avail (lit "ERROR\nERROR\nERROR\nERROR\nERROR\nOK\n")))).trace
          = pre ++ [Event.delay 1000, Event.flush] ∧
        pre.count (Event.delay 1000) = 0 ∧ pre.count Event.flush = 0) :=
  ⟨(reset_escape exampleConfig (start exampleConfig
      (avail (lit "ERROR\nERROR\nERROR\nERROR\nERROR\nOK\n")))).1 (by decide),
    (reset_escape exampleConfig (start exampleConfig
      (avail (lit "ERROR\nERROR\nERROR\nERROR\nERROR\nOK\n")))).2.2.1 (by decide)⟩


theorem readlineLoopIterations_le (cfg : Config) (timeout : Nat) :
    ∀ (input : List Poll) (replyidx : Nat) (buffer : List Char),
      readlineLoopIterations cfg timeout input replyidx buffer ≤ timeout := by
  induction timeout with
  | zero => intro inp i b; simp [readlineLoopIterations]
  | succ t ih =>
    intro inp i b
    simp only [readlineLoopIterations]
    split_ifs
    · omega
    · have := ih (readlineInner cfg inp i b).rest (readlineInner cfg inp i b).replyidx
        (readlineInner cfg inp i b).buffer
      omega

theorem readlineLoopIterations_pos (cfg : Config) (timeout : Nat) (input : List Poll)
    (replyidx : Nat) (buffer : List Char) :
    1 ≤ readlineLoopIterations cfg (timeout + 1) input replyidx buffer := by
  simp only [readlineLoopIterations]
  split_ifs <;> omega

theorem readlineLoop_delays (cfg : Config) (timeout : Nat) :
    ∀ (input : List Poll) (replyidx : Nat) (buffer : List Char),
      (readlineLoop cfg timeout input replyidx buffer).trace
        = List.replicate (readlineLoopIterations cfg timeout input replyidx buffer - 1)
            (Event.delay 1) := by
  induction timeout with
  | zero => intro inp i b; rfl
  | succ t ih =>
    intro inp i b
    simp only [readlineLoop, readlineLoopIterations]
    by_cases hd : (readlineInner cfg inp i b).done = true ∨ t = 0
    · rw [if_pos hd, if_pos hd]; rfl
    · rw [if_neg hd, if_neg hd]
      obtain ⟨u, rfl⟩ : ∃ u, t = u + 1 := ⟨t - 1, by omega⟩
      have hpos := readlineLoopIterations_pos cfg u (readlineInner cfg inp i b).rest
        (readlineInner cfg inp i b).replyidx (readlineInner cfg inp i b).buffer
      simp only
      rw [ih]
      obtain ⟨m, hm⟩ : ∃ m, readlineLoopIterations cfg (u + 1) (readlineInner cfg inp i b).rest
          (readlineInner cfg inp i b).replyidx (readlineInner cfg inp i b).buffer = m + 1 :=
        ⟨_, (Nat.sub_add_cancel hpos).symm⟩
      rw [hm]
      simp [List.replicate_succ]

theorem readlineLoop_silent (cfg : Config) (timeout : Nat) :
    ∀ (n replyidx : Nat) (buffer : List Char),
      (readlineLoop cfg timeout (List.replicate n Poll.idle) replyidx buffer).replyidx = replyidx ∧
        (readlineLoop cfg timeout (List.replicate n Poll.idle) replyidx buffer).buffer = buffer ∧
        readlineLoopIterations cfg timeout (List.replicate n Poll.idle) replyidx buffer
          = timeout := by
  induction timeout with
  | zero => intro n i b; exact ⟨rfl, rfl, rfl⟩
  | succ t ih =>
    intro n i b
    have hin : readlineInner cfg (List.replicate n Poll.idle) i b
        = ⟨List.replicate (n - 1) Poll.idle, i, b, false⟩ := by
      cases n with
      | zero => rfl
      | succ m => rfl
    simp only [readlineLoop, readlineLoopIterations, hin, Bool.false_eq_true, false_or]
    by_cases h0 : t = 0
    · subst h0
      simp
    · rw [if_neg h0, if_neg h0]
      obtain ⟨g1, g2, g3⟩ := ih (n - 1) i b
      exact ⟨g1, g2, by rw [g3]; omega⟩

/-- C15: `readline` makes at most `t` iterations of its outer loop and one delay
of 1 ms between two iterations, so fewer than `t` plus one delays; `timeout`
goes down once per iteration and not when an available byte is read (a `'\r'`
or a stored byte leaves the loop with the same `timeout` for the rest of the
input), while an empty poll costs one unit and one delay; on a stream without
any byte the call returns 0 with an empty buffer after exactly `t` polls; with
`t = 0` it reads nothing and returns 0. -/
theorem readline_polling (cfg : Config) :
    (∀ (t : Nat) (s : BLE),
      readlineIterations cfg t s ≤ t ∧
        (readline cfg t s).trace = List.replicate (readlineIterations cfg t s - 1) (Event.delay 1) ∧
        (readline cfg t s).trace.length ≤ t) ∧
    (∀ (t : Nat) (rest : List Poll) (replyidx : Nat) (buffer : List Char),
      readlineLoop cfg (t + 1) (Poll.byte '\r' :: rest) replyidx buffer
          = readlineLoop cfg (t + 1) rest replyidx buffer ∧
        readlineLoopIterations cfg (t + 1) (Poll.byte '\r' :: rest) replyidx buffer
          = readlineLoopIterations cfg (t + 1) rest replyidx buffer) ∧
    (∀ (t : Nat) (c : Char) (rest : List Poll) (replyidx : Nat) (buffer : List Char),
      c ≠ '\r' → c ≠ '\n' → (replyidx + 1) % 65536 < cfg.BLE_BUFSIZE - 1 →
      readlineLoop cfg (t + 1) (Poll.byte c :: rest) replyidx buffer
          = readlineLoop cfg (t + 1) rest ((replyidx + 1) % 65536) (buffer.set replyidx c) ∧
        readlineLoopIterations cfg (t + 1) (Poll.byte c :: rest) replyidx buffer
          = readlineLoopIterations cfg (t + 1) rest ((replyidx + 1) % 65536)
              (buffer.set replyidx c)) ∧
    (∀ (t : Nat) (rest : List Poll) (replyidx : Nat) (buffer : List Char),
      (readlineLoop cfg (t + 2) (Poll.idle :: rest) replyidx buffer).trace
          = Event.delay 1 :: (readlineLoop cfg (t + 1) rest replyidx buffer).trace ∧
        readlineLoopIterations cfg (t + 2) (Poll.idle :: rest) replyidx buffer
          = 1 + readlineLoopIterations cfg (t + 1) rest replyidx buffer) ∧
    (∀ (t n : Nat) (buffer : List Char) (verbose : Bool),
      (readline cfg t ⟨List.replicate n Poll.idle, buffer, verbose⟩).val = 0 ∧
        cstr (readline cfg t ⟨List.replicate n Poll.idle, buffer, verbose⟩).st.buffer = [] ∧
        readlineIterations cfg t ⟨List.replicate n Poll.idle, buffer, verbose⟩ = t) ∧
    (∀ s : BLE, (readline cfg 0 s).val = 0 ∧ (readline cfg 0 s).st.input = s.input ∧
      readlineIterations cfg 0 s = 0) := by
  refine ⟨fun t s => ?_, fun t rest i b => ?_, fun t c rest i b hr hn hlt => ?_,
    fun t rest i b => ?_, fun t n b v => ?_, fun s => ⟨rfl, rfl, rfl⟩⟩
  · have h1 := readlineLoopIterations_le cfg t s.input 0 s.buffer
    have h2 := readlineLoop_delays cfg t s.input 0 s.buffer
    refine ⟨h1, h2, ?_⟩
    simp only [readline, h2, List.length_replicate]
    omega
  · simp only [readlineLoop, readlineLoopIterations, readlineInner_cr, and_self]
  · have hge : ¬ ((i + 1) % 65536 ≥ cfg.BLE_BUFSIZE - 1) := by omega
    simp only [readlineLoop, readlineLoopIterations, readlineInner_byte cfg c rest i b hr hn,
      if_neg hge, and_self]
  · constructor
    · simp only [readlineLoop, readlineInner]
      simp
    · simp only [readlineLoopIterations, readlineInner]
      simp
  · obtain ⟨g1, g2, g3⟩ := readlineLoop_silent cfg t n 0 b
    refine ⟨g1, ?_, g3⟩
    simp only [readline, g1, g2]
    cases b with
    | nil => rfl
    | cons x xs => simp [cstr, NUL]


/-- C15 (witness): on a silent stream `readline(250)` polls 250 times and delays
249 times; reading the available byte `a` leaves `timeout` as it is. -/
theorem readline_polling_witness :
    readlineIterations exampleConfig 250 (start exampleConfig []) = 250 ∧
      (readline exampleConfig 250 (start exampleConfig [])).trace.length ≤ 250 ∧
      (readline exampleConfig 250 (start exampleConfig [])).trace.length = 249 ∧
      readlineLoop exampleConfig 1 (Poll.byte 'a' :: avail (lit "b\n")) 0 (List.replicate 128 NUL)
        = readlineLoop exampleConfig 1 (avail (lit "b\n")) ((0 + 1) % 65536)
            ((List.replicate 128 NUL).set 0 'a') :=
  ⟨((readline_polling exampleConfig).2.2.2.2.1 250 0 (List.replicate 128 NUL) false).2.2,
    ((readline_polling exampleConfig).1 250 (start exampleConfig [])).2.2,
    by decide,
    ((readline_polling exampleConfig).2.2.1 0 'a' (avail (lit "b\n")) 0 (List.replicate 128 NUL)
      (by decide) (by decide) (by decide)).1⟩

theorem waitForOK_silent (cfg : Config) (s : BLE) (h : s.input = []) :
    (waitForOK cfg s).val = false ∧ (waitForOK cfg s).st.input = [] := by
  have h0 : (readline cfg cfg.BLE_DEFAULT_TIMEOUT s).val = 0 := by
    have := (readlineLoop_silent cfg cfg.BLE_DEFAULT_TIMEOUT 0 0 s.buffer).1
    simp only [readline, h]
    exact this
  have h1 : (readline cfg cfg.BLE_DEFAULT_TIMEOUT s).st.input = [] := by
    have := readlineLoop_rest_le cfg cfg.BLE_DEFAULT_TIMEOUT s.input 0 s.buffer
    rw [h] at this
    simp only [readline]
    rw [h]
    exact List.length_eq_zero.mp (Nat.le_zero.mp this)
  have hw : waitForOKLoop cfg (s.input.length + 1) s
      = some ⟨false, (readline cfg cfg.BLE_DEFAULT_TIMEOUT s).st,
          (readline cfg cfg.BLE_DEFAULT_TIMEOUT s).trace⟩ := by
    simp only [waitForOKLoop, h0, if_true]
  simp only [waitForOK, hw, Option.getD_some]
  exact ⟨trivial, h1⟩

theorem attemptOK_silent (cfg : Config) (cmd : List Char) (k : Nat) :
    ∀ s : BLE, s.input = [] → attemptOK cfg cmd k s = false := by
  induction k with
  | zero =>
    intro s h
    exact (waitForOK_silent cfg s h).1
  | succ n ih =>
    intro s h
    exact ih (sendCommandCheckOK cfg cmd s).st (waitForOK_silent cfg s h).2

theorem factoryResetProgress_spec (cfg : Config) (n : Nat) :
    ∀ s : BLE, (factoryResetLoop cfg n s = none ↔ (factoryResetProgress cfg n s).2 = false) ∧
      ∀ o, factoryResetLoop cfg n s = some o → o.trace = (factoryResetProgress cfg n s).1 := by
  induction n with
  | zero =>
    intro s
    exact ⟨⟨fun _ => rfl, fun _ => rfl⟩, fun o h => by simp [factoryResetLoop] at h⟩
  | succ m ih =>
    intro s
    obtain ⟨g1, g2⟩ := ih (sendCommandCheckOK cfg (lit "AT+FACTORYRESET") s).st
    simp only [factoryResetLoop, factoryResetProgress]
    split_ifs with hv
    · constructor
      · constructor
        · intro h; cases h
        · intro h; cases h
      · intro o h
        simp only [Option.some.injEq] at h
        rw [← h]
    · refine ⟨?_, fun o h => ?_⟩
      · simp only [Option.map_eq_none']
        exact g1
      · simp only [Option.map_eq_some'] at h
        obtain ⟨o1, ho1, rfl⟩ := h
        simp only
        rw [g2 o1 ho1]

theorem factoryResetProgress_fail (cfg : Config) (n : Nat) :
    ∀ s : BLE, (∀ k < n, attemptOK cfg (lit "AT+FACTORYRESET") k s = false) →
      factoryResetProgress cfg n s = (attemptsTrace cfg (lit "AT+FACTORYRESET") n s, false) := by
  induction n with
  | zero => intro s _; rfl
  | succ m ih =>
    intro s h
    have h0 : (sendCommandCheckOK cfg (lit "AT+FACTORYRESET") s).val = false :=
      h 0 (Nat.succ_pos _)
    have := ih (sendCommandCheckOK cfg (lit "AT+FACTORYRESET") s).st
      (fun k hk => h (k + 1) (Nat.succ_lt_succ hk))
    simp only [factoryResetProgress, h0, Bool.false_eq_true, if_false, this, attemptsTrace]

theorem factoryResetProgress_mono (cfg : Config) (k : Nat) :
    ∀ (m : Nat) (s : BLE), k ≤ m →
      ∃ rest, (factoryResetProgress cfg m s).1 = (factoryResetProgress cfg k s).1 ++ rest := by
  induction k with
  | zero => intro m s _; exact ⟨_, (List.nil_append _).symm⟩
  | succ j ih =>
    intro m s hm
    obtain ⟨i, rfl⟩ : ∃ i, m = i + 1 := ⟨m - 1, by omega⟩
    simp only [factoryResetProgress]
    split_ifs
    · exact ⟨[], (List.append_nil _).symm⟩
    · obtain ⟨rest, hr⟩ := ih i (sendCommandCheckOK cfg (lit "AT+FACTORYRESET") s).st (by omega)
      refine ⟨rest, ?_⟩
      simp only [hr, List.append_assoc]

theorem factoryReset_progress (cfg : Config) (m : Nat) (t : BLE) :
    (factoryReset cfg m t = none ↔ (factoryResetProgress cfg m t).2 = false) ∧
      ∀ o, factoryReset cfg m t = some o →
        o.trace = (factoryResetProgress cfg m t).1 ++ [Event.flush] ∧
          ∀ k ≤ m, ∃ rest, o.trace = (factoryResetProgress cfg k t).1 ++ rest := by
  obtain ⟨g1, g2⟩ := factoryResetProgress_spec cfg m t
  refine ⟨?_, fun o ho => ?_⟩
  · simp only [factoryReset, Option.map_eq_none']
    exact g1
  · simp only [factoryReset, Option.map_eq_some'] at ho
    obtain ⟨o1, ho1, rfl⟩ := ho
    have e := g2 o1 ho1
    refine ⟨by simp only [e], fun k hk => ?_⟩
    obtain ⟨rest, hr⟩ := factoryResetProgress_mono cfg k m t hk
    exact ⟨rest ++ [Event.flush], by simp only [e, hr, List.append_assoc]⟩

/-- C16: `factoryReset` has no retry cap: when every attempt
`sendCommandCheckOK("AT+FACTORYRESET")` fails, then for every number `n` the call
has not returned after `n` iterations of its loop, in which it has sent the
command `n` times, each time followed by a delay of 1000 ms.  The effects of the
first `n` iterations are those of `factoryReset` itself: for every stream and
every bound, the call returns within the bound exactly when the loop has ended
by then, what it has done then is the effects of its iterations and the flush,
and the effects of its first `k` iterations are the beginning of that. -/
theorem factoryReset_unbounded (cfg : Config) (s : BLE)
    (hfail : ∀ k, attemptOK cfg (lit "AT+FACTORYRESET") k s = false) (n : Nat) :
    factoryReset cfg n s = none ∧
      (factoryResetProgress cfg n s).2 = false ∧
      (factoryResetProgress cfg n s).1 = attemptsTrace cfg (lit "AT+FACTORYRESET") n s ∧
      commandsSent (lit "AT+FACTORYRESET") (factoryResetProgress cfg n s).1 = n ∧
      (factoryResetProgress cfg n s).1.count (Event.delay 1000) = n ∧
      (∀ (m : Nat) (t : BLE),
        (factoryReset cfg m t = none ↔ (factoryResetProgress cfg m t).2 = false) ∧
          ∀ o, factoryReset cfg m t = some o →
            o.trace = (factoryResetProgress cfg m t).1 ++ [Event.flush] ∧
              ∀ k ≤ m, ∃ rest, o.trace = (factoryResetProgress cfg k t).1 ++ rest) := by
  have hp := factoryResetProgress_fail cfg n s (fun k _ => hfail k)
  obtain ⟨c1, c2, _⟩ := attemptsTrace_counts cfg (lit "AT+FACTORYRESET") n s
  have hnone : factoryResetLoop cfg n s = none :=
    (factoryResetProgress_spec cfg n s).1.mpr (by rw [hp])
  refine ⟨by simp only [factoryReset, hnone, Option.map_none'], by rw [hp], by rw [hp], ?_, ?_,
    fun m t => factoryReset_progress cfg m t⟩
  · rw [hp]; exact c1
  · rw [hp]; exact c2

/-- C16 (witness): in front of a module that stays silent, `factoryReset` has not
returned after 1000 iterations, and has sent its command 1000 times. -/
theorem factoryReset_unbounded_witness :
    factoryReset exampleConfig 1000 (start exampleConfig []) = none ∧
      (factoryResetProgress exampleConfig 1000 (start exampleConfig [])).2 = false ∧
      (factoryResetProgress exampleConfig 1000 (start exampleConfig [])).1
        = attemptsTrace exampleConfig (lit "AT+FACTORYRESET") 1000 (start exampleConfig []) ∧
      commandsSent (lit "AT+FACTORYRESET")
        (factoryResetProgress exampleConfig 1000 (start exampleConfig [])).1 = 1000 ∧
      (factoryResetProgress exampleConfig 1000 (start exampleConfig [])).1.count
        (Event.delay 1000) = 1000 ∧
      (∀ (m : Nat) (t : BLE),
        (factoryReset exampleConfig m t = none ↔
            (factoryResetProgress exampleConfig m t).2 = false) ∧
          ∀ o, factoryReset exampleConfig m t = some o →
            o.trace = (factoryResetProgress exampleConfig m t).1 ++ [Event.flush] ∧
              ∀ k ≤ m, ∃ rest, o.trace = (factoryResetProgress exampleConfig k t).1 ++ rest) :=
  factoryReset_unbounded exampleConfig (start exampleConfig [])
    (fun k => attemptOK_silent exampleConfig (lit "AT+FACTORYRESET") k (start exampleConfig []) rfl)
    1000

theorem newlineLines_xs (n : Nat) :
    newlineLines (List.replicate n 'x' ++ lit "OK\n")
      = [List.replicate n 'x' ++ lit "OK", []] := by
  induction n with
  | zero => decide
  | succ m ih =>
    have hx : ('x' = '\n') = False := by decide
    rw [List.replicate_succ, List.cons_append, newlineLines, ih]
    simp only [hx, if_false, List.cons_append]

theorem dropCR_xs (n : Nat) : dropCR (List.replicate n 'x') = List.replicate n 'x' := by
  induction n with
  | zero => rfl
  | succ m ih =>
    have hx : ('x' != '\r') = true := by decide
    rw [List.replicate_succ]
    simp only [dropCR, List.filter_cons, hx, if_true] at ih ⊢
    rw [ih]

theorem cstr_xs (n : Nat) (tail : List Char) :
    cstr (List.replicate n 'x' ++ NUL :: tail) = List.replicate n 'x' := by
  induction n with
  | zero => simp [cstr]
  | succ m ih =>
    have hx : ('x' != NUL) = true := by decide
    simp only [cstr] at ih
    simp only [List.replicate_succ, List.cons_append, cstr, List.takeWhile_cons, hx, if_true, ih]

/-- C17: an over-long line is cut after `BLE_BUFSIZE-1` bytes and what is left
of it is read as the next line: the fully available stream of `BLE_BUFSIZE-1`
bytes `x` followed by `"OK\n"` has no newline-delimited line equal to `"OK"`,
yet the first `readline` returns the `BLE_BUFSIZE-1` bytes `x`, the second
captures `"OK"`, and `waitForOK` returns true. -/
theorem waitForOK_overlong (cfg : Config) (hB4 : 4 ≤ cfg.BLE_BUFSIZE)
    (hB : cfg.BLE_BUFSIZE ≤ 65536) (hT : 1 ≤ cfg.BLE_DEFAULT_TIMEOUT)
    (buffer : List Char) (verbose : Bool) (hbuf : buffer.length = cfg.BLE_BUFSIZE) :
    lit "OK" ∉ newlineLines (overlong cfg) ∧
      (readline cfg cfg.BLE_DEFAULT_TIMEOUT ⟨avail (overlong cfg), buffer, verbose⟩).val
        = cfg.BLE_BUFSIZE - 1 ∧
      (readline cfg cfg.BLE_DEFAULT_TIMEOUT ⟨avail (overlong cfg), buffer, verbose⟩).st.buffer
        = List.replicate (cfg.BLE_BUFSIZE - 1) 'x' ++ [NUL] ∧
      (readline cfg cfg.BLE_DEFAULT_TIMEOUT ⟨avail (overlong cfg), buffer, verbose⟩).st.input
        = avail (lit "OK\n") ∧
      (readline cfg cfg.BLE_DEFAULT_TIMEOUT
        (readline cfg cfg.BLE_DEFAULT_TIMEOUT ⟨avail (overlong cfg), buffer, verbose⟩).st).val
        = 2 ∧
      cstr (readline cfg cfg.BLE_DEFAULT_TIMEOUT
        (readline cfg cfg.BLE_DEFAULT_TIMEOUT ⟨avail (overlong cfg), buffer, verbose⟩).st).st.buffer
        = lit "OK" ∧
      (waitForOK cfg ⟨avail (overlong cfg), buffer, verbose⟩).val = true := by
  obtain ⟨m, hm⟩ : ∃ m, cfg.BLE_BUFSIZE - 1 = m + 1 := ⟨cfg.BLE_BUFSIZE - 2, by omega⟩
  have hin : avail (overlong cfg)
      = avail [] ++ (avail (List.replicate m 'x') ++ Poll.byte 'x' :: avail (lit "OK\n")) := by
    simp only [overlong, hm, avail, List.replicate_succ', List.map_append, List.map_cons,
      List.map_nil, List.nil_append, List.append_assoc, List.singleton_append]
  have h1 := readline_full cfg (by omega) hB cfg.BLE_DEFAULT_TIMEOUT hT [] (List.replicate m 'x')
    'x' (avail (lit "OK\n")) buffer verbose (by simp) (by
      intro d hd
      rw [List.eq_of_mem_replicate hd]
      decide) (by decide) (by rw [dropCR_xs, List.length_replicate]; omega) hbuf
  rw [← hin, dropCR_xs] at h1
  have hbuf1 : List.replicate m 'x' ++ ['x', NUL] = List.replicate (m + 1) 'x' ++ [NUL] := by
    rw [List.replicate_succ']
    simp
  rw [hbuf1, ← hm] at h1
  have hlen1 : (List.replicate (cfg.BLE_BUFSIZE - 1) 'x' ++ [NUL]).length = cfg.BLE_BUFSIZE := by
    rw [List.length_append, List.length_replicate, List.length_singleton]
    omega
  have h2 := readline_line cfg hB cfg.BLE_DEFAULT_TIMEOUT hT [] (lit "OK") []
    (List.replicate (cfg.BLE_BUFSIZE - 1) 'x' ++ [NUL]) verbose (by simp) (by decide) (by decide)
    (by
      have : (dropCR (lit "OK")).length = 2 := by decide
      rw [this]; omega) hlen1
  have hin2 : avail [] ++ (avail (lit "OK") ++ [Poll.byte '\n']) = avail (lit "OK\n") := by decide
  rw [hin2] at h2
  have hd2 : dropCR (lit "OK") = lit "OK" := by decide
  rw [hd2] at h2
  have hc2 : cstr (lit "OK" ++ NUL :: List.drop ((lit "OK").length + 1)
      (List.replicate (cfg.BLE_BUFSIZE - 1) 'x' ++ [NUL])) = lit "OK" := by
    simp [cstr, lit, NUL]
  have hc1 : cstr (List.replicate (cfg.BLE_BUFSIZE - 1) 'x' ++ [NUL])
      = List.replicate (cfg.BLE_BUFSIZE - 1) 'x' := cstr_xs _ []
  have hne1 : List.replicate (cfg.BLE_BUFSIZE - 1) 'x' ≠ lit "OK" := by
    rw [hm, List.replicate_succ]
    intro e
    have := List.head_eq_of_cons_eq e
    exact absurd this (by decide)
  have hne2 : List.replicate (cfg.BLE_BUFSIZE - 1) 'x' ≠ lit "ERROR" := by
    rw [hm, List.replicate_succ]
    intro e
    have := List.head_eq_of_cons_eq e
    exact absurd this (by decide)
  refine ⟨?_, ?_, ?_, ?_, ?_, ?_, ?_⟩
  · rw [overlong, newlineLines_xs]
    intro hmem
    simp only [List.mem_cons, List.mem_singleton, List.not_mem_nil, or_false] at hmem
    rcases hmem with e | e
    · have := congrArg List.length e
      rw [List.length_append, List.length_replicate, hm] at this
      have h2 : (lit "OK").length = 2 := by decide
      omega
    · exact absurd e (by decide)
  · rw [h1]
  · rw [h1]
  · rw [h1]
  · rw [h1, h2]; rfl
  · rw [h1, h2]; exact hc2
  · obtain ⟨f, hf⟩ : ∃ f, (avail (overlong cfg)).length + 1 = f + 2 :=
      ⟨(avail (overlong cfg)).length - 1, by
        have : 1 ≤ (avail (overlong cfg)).length := by
          simp [avail, overlong, lit]
        omega⟩
    have hval1 : cfg.BLE_BUFSIZE - 1 ≠ 0 := by omega
    have hw : waitForOKLoop cfg (f + 2) ⟨avail (overlong cfg), buffer, verbose⟩
        = some ⟨true, ⟨[], lit "OK" ++ NUL :: List.drop ((lit "OK").length + 1)
            (List.replicate (cfg.BLE_BUFSIZE - 1) 'x' ++ [NUL]), verbose⟩, [] ++ []⟩ := by
      simp only [waitForOKLoop, h1, if_neg hval1, hc1, if_neg hne1, if_neg hne2, h2, hc2]
      rfl
    simp only [waitForOK, hf, hw, Option.getD_some]

/-- C17 (witness): with the buffer of 128 bytes, 127 bytes `x` followed by
`"OK\n"` make `waitForOK` return true. -/
theorem waitForOK_overlong_witness :
    (waitForOK exampleConfig
      ⟨avail (overlong exampleConfig), List.replicate 128 NUL, false⟩).val = true :=
  (waitForOK_overlong exampleConfig (by decide) (by decide) (by decide)
    (List.replicate 128 NUL) false (by decide)).2.2.2.2.2.2


theorem strtol_octal (text : List Char) (h0 : text.head? = some '0')
    (hx : text.tail.head? ≠ some 'x') (hX : text.tail.head? ≠ some 'X') :
    strtol text 0 = min LONG_MAX ((digitsValue 8 text 0 : Nat) : Int) := by
  cases text with
  | nil => simp at h0
  | cons c cs =>
    simp only [List.head?_cons, Option.some.injEq] at h0
    subst h0
    simp only [List.tail_cons] at hx hX
    have hsp : isspace '0' = false := by decide
    have hd : List.dropWhile isspace ('0' :: cs) = '0' :: cs := by
      simp [List.dropWhile_cons, hsp]
    have hm : (some '0' = some '-') = False := by decide
    have hp : (some '0' = some '+') = False := by decide
    unfold strtol
    simp only [hd, List.head?_cons, hm, hp, or_self, if_false, decide_False, List.tail_cons, hx, hX,
      Bool.or_self, Bool.and_false, Bool.false_and, Bool.false_eq_true, and_false, true_or,
      if_true, Bool.false_eq_true]

/-- C18: `readline_parseInt` calls `strtol` with base 0, so a text that begins
with `0` not followed by `x` or `X` is read as an octal number: the captured
line `"010"` gives 8, not 10, and the captured line `"08"` gives 0. -/
theorem readline_parseInt_octal (cfg : Config) (s : BLE) :
    ((readline cfg cfg.BLE_DEFAULT_TIMEOUT s).st.buffer.take
        (readline cfg cfg.BLE_DEFAULT_TIMEOUT s).val = lit "010" →
      (readline_parseInt cfg s).val = 8 ∧ (readline_parseInt cfg s).val ≠ 10) ∧
    ((readline cfg cfg.BLE_DEFAULT_TIMEOUT s).st.buffer.take
        (readline cfg cfg.BLE_DEFAULT_TIMEOUT s).val = lit "08" →
      (readline_parseInt cfg s).val = 0) ∧
    ((readline cfg cfg.BLE_DEFAULT_TIMEOUT s).val ≠ 0 →
      (cstr (readline cfg cfg.BLE_DEFAULT_TIMEOUT s).st.buffer).head? = some '0' →
      (cstr (readline cfg cfg.BLE_DEFAULT_TIMEOUT s).st.buffer).tail.head? ≠ some 'x' →
      (cstr (readline cfg cfg.BLE_DEFAULT_TIMEOUT s).st.buffer).tail.head? ≠ some 'X' →
      (readline_parseInt cfg s).val = min LONG_MAX
        ((digitsValue 8 (cstr (readline cfg cfg.BLE_DEFAULT_TIMEOUT s).st.buffer) 0 : Nat) : Int)) := by
  have hc := readline_cstr_take cfg cfg.BLE_DEFAULT_TIMEOUT s
  have hv : ∀ text : List Char, text ≠ [] →
      (readline cfg cfg.BLE_DEFAULT_TIMEOUT s).st.buffer.take
        (readline cfg cfg.BLE_DEFAULT_TIMEOUT s).val = text →
      (readline_parseInt cfg s).val = strtol (cstr text) 0 := by
    intro text hne h
    have h0 : (readline cfg cfg.BLE_DEFAULT_TIMEOUT s).val ≠ 0 := by
      intro e
      rw [e, List.take_zero] at h
      exact hne h.symm
    rw [h] at hc
    simp only [readline_parseInt, if_neg h0, hc]
  refine ⟨fun h => ?_, fun h => ?_, fun h0 h1 h2 h3 => ?_⟩
  · rw [hv _ (by decide) h]; decide
  · rw [hv _ (by decide) h]; decide
  · simp only [readline_parseInt, if_neg h0]
    exact strtol_octal _ h1 h2 h3

/-- C18 (witness): the replies `"010\r\n"` and `"08\r\n"` give 8 and 0, and
`"0755\r\n"` gives 493. -/
theorem readline_parseInt_octal_witness :
    (readline_parseInt exampleConfig (start exampleConfig (avail (lit "010\r\n")))).val = 8 ∧
      (readline_parseInt exampleConfig (start exampleConfig (avail (lit "08\r\n")))).val = 0 ∧
      (readline_parseInt exampleConfig (start exampleConfig (avail (lit "0755\r\n")))).val
        = 493 :=
  ⟨((readline_parseInt_octal exampleConfig _).1 (by decide)).1,
    (readline_parseInt_octal exampleConfig _).2.1 (by decide),
    ((readline_parseInt_octal exampleConfig (start exampleConfig (avail (lit "0755\r\n")))).2.2
      (by decide) (by decide) (by decide) (by decide)).trans (by decide)⟩

/-- C19: `readline` stores a NUL received from the stream like any other byte
and counts it, while `waitForOK` compares the buffer as a C string, which ends at
the first NUL: for the received bytes `'O','K',NUL,'x','\n'` `readline` returns
4, the captured line is not `"OK"`, and `waitForOK` returns true. -/
theorem waitForOK_embedded_NUL (cfg : Config) (hB6 : 6 ≤ cfg.BLE_BUFSIZE)
    (hB : cfg.BLE_BUFSIZE ≤ 65536) (hT : 1 ≤ cfg.BLE_DEFAULT_TIMEOUT)
    (buffer : List Char) (verbose : Bool) (hbuf : buffer.length = cfg.BLE_BUFSIZE) :
    (∀ (rest : List Poll) (replyidx : Nat) (buf : List Char),
      readlineInner cfg (Poll.byte NUL :: rest) replyidx buf
        = if (replyidx + 1) % 65536 ≥ cfg.BLE_BUFSIZE - 1
          then ⟨rest, (replyidx + 1) % 65536, buf.set replyidx NUL, true⟩
          else readlineInner cfg rest ((replyidx + 1) % 65536) (buf.set replyidx NUL)) ∧
      (readline cfg cfg.BLE_DEFAULT_TIMEOUT
        ⟨avail ['O', 'K', NUL, 'x', '\n'], buffer, verbose⟩).val = 4 ∧
      (readline cfg cfg.BLE_DEFAULT_TIMEOUT
        ⟨avail ['O', 'K', NUL, 'x', '\n'], buffer, verbose⟩).st.buffer.take 4
        = ['O', 'K', NUL, 'x'] ∧
      ['O', 'K', NUL, 'x'] ≠ lit "OK" ∧
      cstr (readline cfg cfg.BLE_DEFAULT_TIMEOUT
        ⟨avail ['O', 'K', NUL, 'x', '\n'], buffer, verbose⟩).st.buffer = lit "OK" ∧
      (waitForOK cfg ⟨avail ['O', 'K', NUL, 'x', '\n'], buffer, verbose⟩).val = true := by
  have h1 := readline_line cfg hB cfg.BLE_DEFAULT_TIMEOUT hT [] ['O', 'K', NUL, 'x'] [] buffer
    verbose (by simp) (by decide) (by decide)
    (by
      have : (dropCR ['O', 'K', NUL, 'x']).length = 4 := by decide
      rw [this]; omega) hbuf
  have hin : avail [] ++ (avail ['O', 'K', NUL, 'x'] ++ [Poll.byte '\n'])
      = avail ['O', 'K', NUL, 'x', '\n'] := by decide
  have hd : dropCR ['O', 'K', NUL, 'x'] = ['O', 'K', NUL, 'x'] := by decide
  rw [hin, hd] at h1
  have hc : cstr (['O', 'K', NUL, 'x'] ++ NUL :: List.drop (['O', 'K', NUL, 'x'].length + 1)
      buffer) = lit "OK" := by
    simp [cstr, lit, NUL]
  refine ⟨fun rest i b => readlineInner_byte cfg NUL rest i b (by decide) (by decide), ?_, ?_,
    by decide, ?_, ?_⟩
  · rw [h1]; rfl
  · rw [h1]; rfl
  · rw [h1]; exact hc
  · have hw : waitForOKLoop cfg ((avail ['O', 'K', NUL, 'x', '\n']).length + 1)
        ⟨avail ['O', 'K', NUL, 'x', '\n'], buffer, verbose⟩
        = some ⟨true, ⟨[], ['O', 'K', NUL, 'x'] ++ NUL ::
            List.drop (['O', 'K', NUL, 'x'].length + 1) buffer, verbose⟩, []⟩ := by
      have h4 : (['O', 'K', NUL, 'x'] : List Char).length ≠ 0 := by decide
      simp only [waitForOKLoop, h1, if_neg h4, hc, if_true]
    simp only [waitForOK, hw, Option.getD_some]

/-- C19 (witness): with the buffer of 128 bytes, the bytes `'O','K',NUL,'x','\n'`
give the count 4 and make `waitForOK` return true. -/
theorem waitForOK_embedded_NUL_witness :
    (readline exampleConfig 250 (start exampleConfig (avail ['O', 'K', NUL, 'x', '\n']))).val = 4 ∧
      (waitForOK exampleConfig (start exampleConfig (avail ['O', 'K', NUL, 'x', '\n']))).val
        = true :=
  ⟨(waitForOK_embedded_NUL exampleConfig (by decide) (by decide) (by decide)
      (List.replicate 128 NUL) false (by decide)).2.1,
    (waitForOK_embedded_NUL exampleConfig (by decide) (by decide) (by decide)
      (List.replicate 128 NUL) false (by decide)).2.2.2.2.2⟩


end Adafruit_BLE
